import Mathlib

/-!
Verification of the scrapernhl repository against its natural-language
specification.  Python sources are shallowly embedded: pure helpers become
Lean functions, Python exceptions become an explicit `PyResult` sum, and the
stateful shift/strength pipeline (whose implementation lives in the missing
module `scrapernhl/scraper_legacy.py`) is modelled from the specification.
-/

/-- Kinds of Python exceptions that appear in the embedded code paths. -/
inductive PyExc where
  | runtimeError
  | valueError
  | typeError
  | keyError
  | attributeError
deriving DecidableEq, Repr

/-- Result of running a piece of Python code: either a returned value or a
propagating exception. -/
inductive PyResult (α : Type) where
  | ok (val : α)
  | raised (e : PyExc)
deriving DecidableEq, Repr

/-- True exactly on normally-returning results. -/
def PyResult.isOk {α : Type} : PyResult α → Bool
  | .ok _ => true
  | .raised _ => false

/-- A dynamically typed Python value, as far as the embedded code inspects it. -/
inductive PyVal where
  | dict (fields : List (String × PyVal))
  | list (elems : List PyVal)
  | str (s : String)
  | num (n : Int)
  | none
deriving Repr

/-- Lookup of a key in an embedded Python dict (association list). -/
def dictGet : List (String × PyVal) → String → Option PyVal
  | [], _ => Option.none
  | (k, v) :: rest, key => if k = key then some v else dictGet rest key

/-- Setting a key in an embedded Python dict: overrides in place when the key
exists, appends otherwise (matching CPython dict-merge ordering). -/
def dictSet : List (String × PyVal) → String → PyVal → List (String × PyVal)
  | [], key, v => [(key, v)]
  | (k, w) :: rest, key, v =>
      if k = key then (k, v) :: rest else (k, w) :: dictSet rest key v

/-- Iterating a Python value with a `for` loop: lists yield elements, dicts
yield their keys, strings yield one-character strings, anything else raises
`TypeError`. -/
def pyIter : PyVal → PyResult (List PyVal)
  | .list xs => .ok xs
  | .dict fs => .ok (fs.map (fun kv => PyVal.str kv.1))
  | .str s => .ok (s.toList.map (fun c => PyVal.str (String.mk [c])))
  | _ => .raised .typeError

/-! ## src/scrapernhl/core/utils.py -/

/-- Argument passed to `time_str_to_seconds`: Python `None`, a string, or any
other (non-string) object. -/
inductive PyStrArg where
  | none
  | str (s : List Char)
  | other
deriving DecidableEq, Repr

/-- Python `s.split(":")` on a character list: split at every colon, keeping
empty pieces. -/
def splitColon : List Char → List (List Char)
  | [] => [[]]
  | c :: rest =>
      match splitColon rest with
      | [] => [[]]
      | f :: rs => if c = ':' then [] :: f :: rs else (c :: f) :: rs

/-- Decimal value of a digit character. -/
def chVal (c : Char) : Nat := c.toNat - 48

/-- Value of a digit string read left to right. -/
def parseChars (l : List Char) : Nat := l.foldl (fun a c => a * 10 + chVal c) 0

/-- Parse a nonempty all-digit character list; `Option.none` otherwise. -/
def digitsToNat : List Char → Option Nat
  | [] => Option.none
  | l => if l.all Char.isDigit then some (parseChars l) else Option.none

/-- Strip leading and trailing whitespace, as Python `int` does. -/
def pyStrip (l : List Char) : List Char :=
  ((l.dropWhile Char.isWhitespace).reverse.dropWhile Char.isWhitespace).reverse

/-- Python `int(s)` on a decimal string: optional surrounding whitespace, an
optional sign, then decimal digits; anything else raises (modelled as
`Option.none`).  PEP 515 underscore separators are not modelled. -/
def pyInt : List Char → Option Int
  | l =>
      match pyStrip l with
      | '+' :: ds => (digitsToNat ds).map Int.ofNat
      | '-' :: ds => (digitsToNat ds).map (fun n => -(n : Int))
      | ds => (digitsToNat ds).map Int.ofNat

/-- Embeds `time_str_to_seconds` from src/scrapernhl/core/utils.py: `None`
for a falsy or non-string argument, otherwise split on colons, require
exactly two integer fields `m` and `s`, and return `int(m) * 60 + int(s)`. -/
def time_str_to_seconds : PyStrArg → Option Int
  | .str s =>
      if s = [] then Option.none
      else
        match splitColon s with
        | [m, t] =>
            match pyInt m, pyInt t with
            | some mi, some si => some (mi * 60 + si)
            | _, _ => Option.none
        | _ => Option.none
  | _ => Option.none

/-- A character list holds exactly two colon-separated integer fields. -/
def twoIntFields (s : List Char) : Bool :=
  match splitColon s with
  | [a, b] => (pyInt a).isSome && (pyInt b).isSome
  | _ => false

/-- Association-list model of the `seen` dict in `_dedup_cols`. -/
def seenLookup : List (String × Nat) → String → Option Nat
  | [], _ => Option.none
  | (k, v) :: rest, c => if k = c then some v else seenLookup rest c

/-- Update (or insert) a key in the `seen` dict. -/
def seenSet : List (String × Nat) → String → Nat → List (String × Nat)
  | [], c, n => [(c, n)]
  | (k, v) :: rest, c, n =>
      if k = c then (c, n) :: rest else (k, v) :: seenSet rest c n

/-- Loop body of `_dedup_cols`: first occurrence kept and recorded with count
0, each later duplicate bumps the count and is renamed `c_k`. -/
def dedupAux : List (String × Nat) → List String → List String
  | _, [] => []
  | seen, c :: rest =>
      match seenLookup seen c with
      | Option.none => c :: dedupAux (seenSet seen c 0) rest
      | some n => (c ++ "_" ++ toString (n + 1)) :: dedupAux (seenSet seen c (n + 1)) rest

/-- Embeds `_dedup_cols` from src/scrapernhl/core/utils.py. -/
def _dedup_cols (cols : List String) : List String := dedupAux [] cols

/-- Reference form of the deduplication: rename each element by the number of
earlier occurrences, threading the processed prefix. -/
def dedupSpec (pre : List String) : List String → List String
  | [] => []
  | c :: rest =>
      (if pre.count c = 0 then c else c ++ "_" ++ toString (pre.count c)) ::
        dedupSpec (pre ++ [c]) rest

/-! ## src/scrapernhl/scrapers/teams.py -/

/-- Log events emitted by the embedded scraper functions. -/
inductive LogEvent where
  | invalidSourceFallback (source : String)
deriving DecidableEq, Repr

/-- The `source_dict` URL table of `getTeamsData`. -/
def teamsSourceUrls : List (String × String) :=
  [("calendar", "https://api-web.nhle.com/v1/schedule-calendar/now"),
   ("franchise",
    "https://api.nhle.com/stats/rest/en/franchise?sort=fullName&include=lastSeason.id&include=firstSeason.id"),
   ("records",
    "https://records.nhl.com/site/api/franchise?include=teams.id&include=teams.active&include=teams.triCode&include=teams.placeName&include=teams.commonName&include=teams.fullName&include=teams.logos&include=teams.conference.name&include=teams.division.name&include=teams.franchiseTeam.firstSeason.id&include=teams.franchiseTeam.lastSeason.id")]

/-- Lookup in a string-keyed association table (Python dict access). -/
def tableGet : List (String × String) → String → Option String
  | [], _ => Option.none
  | (k, v) :: rest, key => if k = key then some v else tableGet rest key

/-- Normalization of the fetched response inside `getTeamsData`: unwrap a
`data` or `teams` field of a dict, keep a list, wrap anything else. -/
def teamsNormalize (resp : PyVal) : PyVal :=
  match resp with
  | .dict fs =>
      match dictGet fs "data" with
      | some d => d
      | Option.none =>
          match dictGet fs "teams" with
          | some t => t
          | Option.none => .list [resp]
  | .list xs => .list xs
  | other => .list [other]

/-- Enrichment of one record in the final list comprehension of
`getTeamsData`: non-dict records are filtered out, dict records gain
`scrapedOn` and `source` fields. -/
def teamsEnrich (now source : String) (r : PyVal) : Option PyVal :=
  match r with
  | .dict fs =>
      some (.dict (dictSet (dictSet fs "scrapedOn" (.str now)) "source" (.str source)))
  | _ => Option.none

/-- Embeds `getTeamsData` from src/scrapernhl/scrapers/teams.py.  `fetch`
stands for `fetch_json` and `now` for `datetime.utcnow().isoformat()`; the
first component collects the printed warnings.  An unknown source prints a
warning, falls back to the key `"default"`, and the resulting `KeyError`
inside the `try` block is re-raised as `RuntimeError`.  The ending list
comprehension runs outside the `try`, so a non-iterable data value lets a
`TypeError` propagate unwrapped. -/
def getTeamsData (fetch : String → PyResult PyVal) (now : String) (source : String) :
    List LogEvent × PyResult (List PyVal) :=
  let fallback := (tableGet teamsSourceUrls source).isNone
  let logs : List LogEvent := if fallback then [.invalidSourceFallback source] else []
  let src := if fallback then "default" else source
  match tableGet teamsSourceUrls src with
  | Option.none => (logs, .raised .runtimeError)
  | some url =>
      match fetch url with
      | .raised _ => (logs, .raised .runtimeError)
      | .ok resp =>
          match pyIter (teamsNormalize resp) with
          | .raised e => (logs, .raised e)
          | .ok records => (logs, .ok (records.filterMap (teamsEnrich now src)))

/-! ## src/scrapernhl/scrapers/games.py -/

/-- Python `value.get(key)` method call: `None` default on a dict, an
`AttributeError` on anything else. -/
def pyGetMethod (v : PyVal) (key : String) : PyResult PyVal :=
  match v with
  | .dict fs => .ok ((dictGet fs key).getD .none)
  | _ => .raised .attributeError

/-- Python truthiness of an embedded value. -/
def pyTruthy : PyVal → Bool
  | .dict fs => !fs.isEmpty
  | .list xs => !xs.isEmpty
  | .str s => !(s = "")
  | .num n => !(n = 0)
  | .none => false

/-- Enrichment of a single play inside `getGameData`: `{**play, ...}` raises
`TypeError` on a non-dict play; `goalFetch` stands for `getGoalReplayData`
(its network errors propagate as exceptions into the enclosing `try`). -/
def enrichPlay (goalFetch : String → PyResult PyVal) (addGoalReplayData : Bool)
    (gameFields : List (String × PyVal)) (now : String) (play : PyVal) : PyResult PyVal :=
  match play with
  | .dict pfs =>
      let pptUrl := (dictGet pfs "pptReplayUrl").getD .none
      let pptRes : PyResult PyVal :=
        if addGoalReplayData && pyTruthy pptUrl then
          match pptUrl with
          | .str u => goalFetch u
          | _ => goalFetch ""
        else .ok .none
      match pptRes with
      | .raised e => .raised e
      | .ok ppt =>
          match pyGetMethod ((dictGet gameFields "venue").getD (.dict [])) "default" with
          | .raised e => .raised e
          | .ok venue =>
              match pyGetMethod ((dictGet gameFields "venueLocation").getD (.dict [])) "default" with
              | .raised e => .raised e
              | .ok venueLoc =>
                  let base := dictSet pfs "pptReplayData" ppt
                  let base := dictSet base "gameId" ((dictGet gameFields "id").getD .none)
                  let base := dictSet base "venue" venue
                  let base := dictSet base "venueLocation" venueLoc
                  let base := dictSet base "scrapedOn" (.str now)
                  let base := dictSet base "source" (.str "NHL Play-by-Play API")
                  let extras := ["gameDate", "gameType", "startTimeUTC",
                                 "easternUTCOffset", "venueUTCOffset"]
                  .ok (.dict (extras.foldl
                    (fun acc k => dictSet acc k ((dictGet gameFields k).getD .none)) base))
  | _ => .raised .typeError

/-- Enrich every play, stopping at the first exception. -/
def enrichPlays (goalFetch : String → PyResult PyVal) (addGoalReplayData : Bool)
    (gameFields : List (String × PyVal)) (now : String) : List PyVal → PyResult (List PyVal)
  | [] => .ok []
  | p :: rest =>
      match enrichPlay goalFetch addGoalReplayData gameFields now p with
      | .raised e => .raised e
      | .ok p2 =>
          match enrichPlays goalFetch addGoalReplayData gameFields now rest with
          | .raised e => .raised e
          | .ok r2 => .ok (p2 :: r2)

/-- Embeds `getGameData` from src/scrapernhl/scrapers/games.py.  Everything
from the fetch to the play enrichment happens inside a `try` whose handler
re-raises any exception as `RuntimeError`; the final metadata assignments and
the `return` are outside it.  A `.raised` result models an exception escaping
to the caller. -/
def getGameData (fetch goalFetch : String → PyResult PyVal) (now : String)
    (game : String) (addGoalReplayData : Bool) : PyResult PyVal :=
  let url := "https://api-web.nhle.com/v1/gamecenter/" ++ game ++ "/play-by-play"
  match fetch url with
  | .raised _ => .raised .runtimeError
  | .ok resp =>
      match resp with
      | .dict fs =>
          if fs.isEmpty then .raised .runtimeError
          else
            match pyIter ((dictGet fs "plays").getD (.list [])) with
            | .raised _ => .raised .runtimeError
            | .ok plays =>
                match enrichPlays goalFetch addGoalReplayData fs now plays with
                | .raised _ => .raised .runtimeError
                | .ok enriched =>
                    let fs1 := dictSet fs "plays" (.list enriched)
                    let fs2 := dictSet fs1 "scrapedOn" (.str now)
                    .ok (.dict (dictSet fs2 "source" (.str "NHL Play-by-Play API")))
      | _ => .raised .runtimeError

/-! ## src/sync_supabase.py (and the matching loop in src/sql_generator.py) -/

/-- Entries returned by a failed game-processing body never exist; extract
the list from a successful one. -/
def resultEntries {α : Type} : PyResult (List α) → List α
  | .ok l => l
  | .raised _ => []

/-- Exception recorded for a failed game-processing body. -/
def resultExc {α : Type} : PyResult α → PyExc
  | .ok _ => .runtimeError
  | .raised e => e

/-- Embeds the analytics game loop of `run_sync` in src/sync_supabase.py
(and the discovery loop of `generate_master_schema` in src/sql_generator.py):
each game id is processed inside its own `try`; on success the produced
entries are appended to the batch accumulator, on any exception the failure
is logged for that game id and the loop continues with the next game. -/
def gameLoop {α : Type} (process : Nat → PyResult (List α)) :
    List Nat → List (List α) × List (Nat × PyExc)
  | [] => ([], [])
  | gid :: rest =>
      match process gid with
      | .ok stats =>
          let r := gameLoop process rest
          (stats :: r.1, r.2)
      | .raised e =>
          let r := gameLoop process rest
          (r.1, (gid, e) :: r.2)

/-! ## Spec-modelled game-state pipeline

The module `scrapernhl/scraper_legacy.py` (holding `toi_by_player_and_strength`,
`on_ice_stats_by_player_strength`, `team_strength_aggregates`, `combo_on_ice_stats`
and `pipeline`) is referenced by src/scrapernhl/scraper.py and exercised by
src/tests/test_strength_fix.py but is absent from the sources.  The defs in
this section are therefore modelled from the specification (sections 3, 4.2,
4.3, 4.4, 7 and 8 of spec.md). -/

/-- Modelled from the spec: the strength label of `scraper_legacy`, a pair
`(own_skaters, opp_skaters)` rendered as the string `ownvopp`. -/
structure StrengthLabel where
  own : Nat
  opp : Nat
deriving DecidableEq, Repr

/-- Decimal digit characters of a natural number, most significant first. -/
def natChars (n : Nat) : List Char :=
  if _h : n < 10 then [Nat.digitChar n]
  else natChars (n / 10) ++ [Nat.digitChar (n % 10)]
decreasing_by exact Nat.div_lt_self (by omega) (by omega)

/-- Decimal rendering of a natural number as a string. -/
def natStr (n : Nat) : String := String.mk (natChars n)

/-- Modelled from the spec: rendering of a strength label, the f-string
interpolation used by `scraper_legacy`. -/
def renderLabel (L : StrengthLabel) : String :=
  String.mk (natChars L.own ++ 'v' :: natChars L.opp)

/-- Modelled from the spec: the typed event kinds of the normalized stream
consumed by the missing `scraper_legacy` pipeline. -/
inductive EvKind where
  | shiftOn
  | shiftOff
  | shot
  | missedShot
  | blockedShot
  | goal
  | periodEnd
  | gameEnd
deriving DecidableEq, Repr

/-- Modelled from the spec: one normalized event record (`RawEvent` of
spec.md section 3); `shotValue` is the externally supplied expected-goal
probability, kept as an exact rational. -/
structure RawEvent where
  kind : EvKind
  elapsed : Nat
  team : String
  player : Nat
  isGoalie : Bool
  shotValue : Rat
deriving DecidableEq, Repr

/-- Modelled from the spec: tie-break priority between events sharing a
timestamp — shot and goal events first, then OFF before ON, then period and
game boundaries. -/
def kindPriority : EvKind → Nat
  | .shot => 0
  | .missedShot => 0
  | .blockedShot => 0
  | .goal => 0
  | .shiftOff => 1
  | .shiftOn => 2
  | .periodEnd => 3
  | .gameEnd => 3

/-- Total sort key over events: elapsed seconds, then kind priority. -/
def evKey (e : RawEvent) : Nat := e.elapsed * 4 + kindPriority e.kind

/-- Event order used by the normalizer. -/
def keyLE (a b : RawEvent) : Prop := evKey a ≤ evKey b

instance : DecidableRel keyLE := fun _ _ => Nat.decLe _ _

instance : IsTotal RawEvent keyLE := ⟨fun _ _ => Nat.le_total _ _⟩

instance : IsTrans RawEvent keyLE := ⟨fun _ _ _ => Nat.le_trans⟩

/-- Modelled from the spec: the normalizer emits the events in the total
order of `keyLE` (a stable sort of the input records). -/
def sortEvents (evs : List RawEvent) : List RawEvent := List.insertionSort keyLE evs

/-- Modelled from the spec: one accumulated stat row of a ledger entry —
seconds, Corsi shots for and against, Fenwick (unblocked) shots for and
against, goals for and against, expected goals for and against. -/
structure StatLine where
  seconds : Nat
  sf : Nat
  sa : Nat
  usf : Nat
  usa : Nat
  gf : Nat
  ga : Nat
  xgf : Rat
  xga : Rat
deriving DecidableEq, Repr

/-- The all-zero stat row. -/
def StatLine.zero : StatLine := ⟨0, 0, 0, 0, 0, 0, 0, 0, 0⟩

/-- Componentwise sum of stat rows. -/
def StatLine.add (x y : StatLine) : StatLine :=
  ⟨x.seconds + y.seconds, x.sf + y.sf, x.sa + y.sa, x.usf + y.usf, x.usa + y.usa,
   x.gf + y.gf, x.ga + y.ga, x.xgf + y.xgf, x.xga + y.xga⟩

/-- Componentwise natural scaling of a stat row. -/
def StatLine.smul (n : Nat) (x : StatLine) : StatLine :=
  ⟨n * x.seconds, n * x.sf, n * x.sa, n * x.usf, n * x.usa,
   n * x.gf, n * x.ga, (n : Rat) * x.xgf, (n : Rat) * x.xga⟩

/-- A stat row holding only elapsed seconds. -/
def secondsLine (d : Nat) : StatLine := ⟨d, 0, 0, 0, 0, 0, 0, 0, 0⟩

/-- Swap the for and against fields of a stat row. -/
def flipLine (x : StatLine) : StatLine :=
  ⟨x.seconds, x.sa, x.sf, x.usa, x.usf, x.ga, x.gf, x.xga, x.xgf⟩

/-- Modelled from the spec: the event-team contribution of one non-shift
event — every attempt counts toward Corsi, unblocked attempts toward
Fenwick, goals toward goals, with the external shot value toward xG. -/
def forDelta : EvKind → Rat → StatLine
  | .shot, x => ⟨0, 1, 0, 1, 0, 0, 0, x, 0⟩
  | .missedShot, x => ⟨0, 1, 0, 1, 0, 0, 0, x, 0⟩
  | .blockedShot, _ => ⟨0, 1, 0, 0, 0, 0, 0, 0, 0⟩
  | .goal, x => ⟨0, 1, 0, 1, 0, 1, 0, x, 0⟩
  | _, _ => StatLine.zero

/-- True on the event kinds carrying a shot attempt. -/
def isShotKind : EvKind → Bool
  | .shot => true
  | .missedShot => true
  | .blockedShot => true
  | .goal => true
  | _ => false

/-- Modelled from the spec: a ledger key — `(player_id, team, strength_label)`
for the player ledger; team rows reuse the type with player id 0. -/
structure LKey where
  player : Nat
  team : String
  label : StrengthLabel
deriving DecidableEq, Repr

/-- A ledger: association rows in first-contribution order. -/
abbrev Ledger := List (LKey × StatLine)

/-- Add a delta to the row of a key, creating the row lazily at the end on first
contribution. -/
def bump : Ledger → LKey → StatLine → Ledger
  | [], k, d => [(k, d)]
  | (k0, v0) :: rest, k, d =>
      if k0 = k then (k0, StatLine.add v0 d) :: rest else (k0, v0) :: bump rest k d

/-- The accumulated row of a key (zero when absent). -/
def lookupL : Ledger → LKey → StatLine
  | [], _ => StatLine.zero
  | (k0, v0) :: rest, k => if k0 = k then v0 else lookupL rest k

/-- Credit every listed player of one team with the same delta under the
own strength label of the team. -/
def creditPlayers (team : String) (lab : StrengthLabel) (d : StatLine)
    (ps : List Nat) (l : Ledger) : Ledger :=
  ps.foldl (fun acc p => bump acc ⟨p, team, lab⟩ d) l

/-- Total of the `seconds` field over the rows whose key satisfies `f`. -/
def sumSecondsBy (f : LKey → Bool) : Ledger → Nat
  | [] => 0
  | (k, v) :: rest => (if f k then v.seconds else 0) + sumSecondsBy f rest

/-- Total ledger seconds of one player for one team, across all strength
labels. -/
def playerSeconds (l : Ledger) (team : String) (p : Nat) : Nat :=
  sumSecondsBy (fun k => k.player == p && k.team == team) l

/-- Total ledger seconds of one team across all strength labels. -/
def teamSecondsTotal (l : Ledger) (team : String) : Nat :=
  sumSecondsBy (fun k => k.team == team) l

/-- Modelled from the spec: the per-team on-ice state (`OnIceSet`), skater
and goalie player-ids currently on the ice. -/
structure TeamSt where
  skaters : List Nat
  goalies : List Nat
deriving DecidableEq, Repr

/-- Modelled from the spec: logged shift anomalies of the timeline builder. -/
inductive ShiftAnomaly where
  | duplicateOn (team : String) (player : Nat)
  | orphanOff (team : String) (player : Nat)
deriving DecidableEq, Repr

/-- Modelled from the spec: state of the single sweep over the ordered
events — the on-ice sets of both teams, the start time of the open interval, the
player and team ledgers, and the anomaly log. -/
structure SweepSt where
  a : TeamSt
  b : TeamSt
  t : Nat
  ledger : Ledger
  teamLedger : Ledger
  anomalies : List ShiftAnomaly
deriving DecidableEq, Repr

/-- The sweep starts at time 0 with nobody on ice and empty ledgers. -/
def initSweep : SweepSt := ⟨⟨[], []⟩, ⟨[], []⟩, 0, [], [], []⟩

/-- Modelled from the spec: pipeline configuration — the two team names and
the caller-supplied goalie-inclusion flag. -/
structure PipelineCfg where
  tA : String
  tB : String
  includeGoalies : Bool
deriving DecidableEq, Repr

/-- The players of a team receiving ledger credit: its skaters, plus its
goalies when goalie inclusion is enabled. -/
def creditedList (cfg : PipelineCfg) (ts : TeamSt) : List Nat :=
  ts.skaters ++ (if cfg.includeGoalies then ts.goalies else [])

/-- Modelled from the spec: closing the open interval at a new timestamp.
A zero-duration interval is dropped; otherwise every on-ice player accrues
the duration under the own-perspective label of his team computed from the literal skater
counts of both teams, and both team rows accrue it likewise. -/
def closeInterval (cfg : PipelineCfg) (st : SweepSt) (tNew : Nat) : SweepSt :=
  let d := tNew - st.t
  if d = 0 then { st with t := tNew }
  else
    let la : StrengthLabel := ⟨st.a.skaters.length, st.b.skaters.length⟩
    let lb : StrengthLabel := ⟨st.b.skaters.length, st.a.skaters.length⟩
    let dl := secondsLine d
    { st with
      t := tNew
      ledger := creditPlayers cfg.tB lb dl (creditedList cfg st.b)
        (creditPlayers cfg.tA la dl (creditedList cfg st.a) st.ledger)
      teamLedger := bump (bump st.teamLedger ⟨0, cfg.tA, la⟩ dl) ⟨0, cfg.tB, lb⟩ dl }

/-- Modelled from the spec: applying a SHIFT_ON to the on-ice set of one team —
idempotent on a player already on ice (logged as a duplicate-ON anomaly),
otherwise the player is added with no cap on the resulting count. -/
def applyOnTeam (p : Nat) (g : Bool) (team : String) (ts : TeamSt)
    (anoms : List ShiftAnomaly) : TeamSt × List ShiftAnomaly :=
  if g then
    if p ∈ ts.goalies then (ts, anoms ++ [.duplicateOn team p])
    else ({ ts with goalies := p :: ts.goalies }, anoms)
  else
    if p ∈ ts.skaters then (ts, anoms ++ [.duplicateOn team p])
    else ({ ts with skaters := p :: ts.skaters }, anoms)

/-- Modelled from the spec: applying a SHIFT_OFF to the on-ice set of one team —
a player not on ice is ignored (logged as an orphan-OFF anomaly), otherwise
the player is removed. -/
def applyOffTeam (p : Nat) (g : Bool) (team : String) (ts : TeamSt)
    (anoms : List ShiftAnomaly) : TeamSt × List ShiftAnomaly :=
  if g then
    if p ∈ ts.goalies then ({ ts with goalies := ts.goalies.erase p }, anoms)
    else (ts, anoms ++ [.orphanOff team p])
  else
    if p ∈ ts.skaters then ({ ts with skaters := ts.skaters.erase p }, anoms)
    else (ts, anoms ++ [.orphanOff team p])

/-- Modelled from the spec: crediting a shot-kind event — the on-ice players of the event
team each receive the full for-delta under their own label, the
opposing on-ice players the full against-delta under the reciprocal label,
and the two team rows likewise. -/
def applyShot (cfg : PipelineCfg) (st : SweepSt) (e : RawEvent) : SweepSt :=
  let la : StrengthLabel := ⟨st.a.skaters.length, st.b.skaters.length⟩
  let lb : StrengthLabel := ⟨st.b.skaters.length, st.a.skaters.length⟩
  let df := forDelta e.kind e.shotValue
  if e.team = cfg.tA then
    { st with
      ledger := creditPlayers cfg.tB lb (flipLine df) (creditedList cfg st.b)
        (creditPlayers cfg.tA la df (creditedList cfg st.a) st.ledger)
      teamLedger := bump (bump st.teamLedger ⟨0, cfg.tA, la⟩ df) ⟨0, cfg.tB, lb⟩ (flipLine df) }
  else if e.team = cfg.tB then
    { st with
      ledger := creditPlayers cfg.tB lb df (creditedList cfg st.b)
        (creditPlayers cfg.tA la (flipLine df) (creditedList cfg st.a) st.ledger)
      teamLedger := bump (bump st.teamLedger ⟨0, cfg.tB, lb⟩ df) ⟨0, cfg.tA, la⟩ (flipLine df) }
  else st

/-- Modelled from the spec: dispatch of a single event after the interval
ending at its timestamp has been closed. -/
def applyEvent (cfg : PipelineCfg) (st : SweepSt) (e : RawEvent) : SweepSt :=
  match e.kind with
  | .shiftOn =>
      if e.team = cfg.tA then
        let r := applyOnTeam e.player e.isGoalie e.team st.a st.anomalies
        { st with a := r.1, anomalies := r.2 }
      else if e.team = cfg.tB then
        let r := applyOnTeam e.player e.isGoalie e.team st.b st.anomalies
        { st with b := r.1, anomalies := r.2 }
      else st
  | .shiftOff =>
      if e.team = cfg.tA then
        let r := applyOffTeam e.player e.isGoalie e.team st.a st.anomalies
        { st with a := r.1, anomalies := r.2 }
      else if e.team = cfg.tB then
        let r := applyOffTeam e.player e.isGoalie e.team st.b st.anomalies
        { st with b := r.1, anomalies := r.2 }
      else st
  | .periodEnd => st
  | .gameEnd => st
  | _ => applyShot cfg st e

/-- Modelled from the spec: one sweep step — close the interval at the
timestamp of the event, then apply the event. -/
def stepEvent (cfg : PipelineCfg) (st : SweepSt) (e : RawEvent) : SweepSt :=
  applyEvent cfg (closeInterval cfg st e.elapsed) e

/-- Replay a list of events from a state. -/
def runEvents (cfg : PipelineCfg) (st : SweepSt) (evs : List RawEvent) : SweepSt :=
  evs.foldl (stepEvent cfg) st

/-- Modelled from the spec: the full per-game pipeline — normalize the event
order, then sweep from the empty initial state. -/
def pipeline (cfg : PipelineCfg) (evs : List RawEvent) : SweepSt :=
  runEvents cfg initSweep (sortEvents evs)

/-- The on-ice sets of a sweep state hold no duplicate players. -/
def WFSweep (st : SweepSt) : Prop :=
  st.a.skaters.Nodup ∧ st.a.goalies.Nodup ∧ st.b.skaters.Nodup ∧ st.b.goalies.Nodup

/-- An event is a shift record of the given team, player and goalie flag. -/
def shiftMatches (team : String) (g : Bool) (p : Nat) (e : RawEvent) : Bool :=
  e.team == team && e.player == p && e.isGoalie == g

/-- Reference per-player shift automaton: scan the ordered events tracking
when the player went on ice and the accumulated completed-shift seconds. -/
def shiftSpansAux (team : String) (g : Bool) (p : Nat) :
    List RawEvent → Option Nat → Nat → Option Nat × Nat
  | [], cur, acc => (cur, acc)
  | e :: rest, cur, acc =>
      if shiftMatches team g p e then
        match e.kind, cur with
        | .shiftOn, Option.none => shiftSpansAux team g p rest (some e.elapsed) acc
        | .shiftOn, some s => shiftSpansAux team g p rest (some s) acc
        | .shiftOff, some s => shiftSpansAux team g p rest Option.none (acc + (e.elapsed - s))
        | .shiftOff, Option.none => shiftSpansAux team g p rest Option.none acc
        | _, c => shiftSpansAux team g p rest c acc
      else shiftSpansAux team g p rest cur acc

/-- Timestamp of the last event of the ordered stream (0 when empty). -/
def finalTime (evs : List RawEvent) : Nat := evs.foldl (fun _ e => e.elapsed) 0

/-- Total shift seconds of one player from the ordered events, an open final
shift closing at the last timestamp. -/
def shiftTotal (team : String) (g : Bool) (p : Nat) (evs : List RawEvent) : Nat :=
  match shiftSpansAux team g p evs Option.none 0 with
  | (some s, acc) => acc + (finalTime evs - s)
  | (Option.none, acc) => acc

/-- Serialization of one stat row. -/
def serializeLine (v : StatLine) : String :=
  natStr v.seconds ++ "," ++ natStr v.sf ++ "," ++ natStr v.sa ++ "," ++
    natStr v.usf ++ "," ++ natStr v.usa ++ "," ++ natStr v.gf ++ "," ++
    natStr v.ga ++ "," ++ toString v.xgf ++ "," ++ toString v.xga

/-- Serialization of one ledger row. -/
def serializeRow (r : LKey × StatLine) : String :=
  natStr r.1.player ++ "," ++ r.1.team ++ "," ++ renderLabel r.1.label ++ "," ++
    serializeLine r.2 ++ ";"

/-- Byte rendering of a whole ledger in row order. -/
def serializeLedger (l : Ledger) : String :=
  l.foldl (fun acc r => acc ++ serializeRow r) ""


/-- Invariant tying the `seen` dict of `_dedup_cols` to the processed
prefix. -/
def SeenInv (pre : List String) (seen : List (String × Nat)) : Prop :=
  ∀ c, seenLookup seen c =
    if pre.count c = 0 then Option.none else some (pre.count c - 1)

/-- Contribution multiplicity of one whole-unit credit pass to a key. -/
def creditCount (tm : String) (lab : StrengthLabel) (ps : List Nat) (k : LKey) : Nat :=
  if k.team = tm ∧ k.label = lab then ps.count k.player else 0

/-- The configuration with the two team slots exchanged. -/
def swapCfg (cfg : PipelineCfg) : PipelineCfg := ⟨cfg.tB, cfg.tA, cfg.includeGoalies⟩

/-- Correspondence between a sweep state and its team-swapped counterpart:
the sides are exchanged, the clock agrees, the ledgers agree pointwise, and
the anomaly logs agree. -/
def SwapRel (st1 st2 : SweepSt) : Prop :=
  st1.a = st2.b ∧ st1.b = st2.a ∧ st1.t = st2.t ∧
  (∀ k, lookupL st1.ledger k = lookupL st2.ledger k) ∧
  (∀ k, lookupL st1.teamLedger k = lookupL st2.teamLedger k) ∧
  st1.anomalies = st2.anomalies

/-- The team-state of the side owning a team name (first slot wins). -/
def sideOf (cfg : PipelineCfg) (st : SweepSt) (team : String) : TeamSt :=
  if team = cfg.tA then st.a else st.b

/-- The skater or goalie list of a team-state, selected by the goalie flag. -/
def roleList (ts : TeamSt) (g : Bool) : List Nat :=
  if g then ts.goalies else ts.skaters

/-- Simulation invariant between the sweep and the reference per-player shift
automaton: the on-ice sets are duplicate-free, the player is in his role
list exactly when the automaton records an open shift, he is absent from the
other role list, an open shift started no later than the sweep clock, and
his ledger seconds equal the completed-shift seconds plus the open part. -/
def PlayerInv (cfg : PipelineCfg) (team : String) (g : Bool) (p : Nat)
    (st : SweepSt) (cur : Option Nat) (acc : Nat) : Prop :=
  WFSweep st ∧
  (p ∈ roleList (sideOf cfg st team) g ↔ cur ≠ Option.none) ∧
  p ∉ roleList (sideOf cfg st team) (!g) ∧
  (∀ s, cur = some s → s ≤ st.t) ∧
  playerSeconds st.ledger team p
    = acc + (match cur with | some s => st.t - s | Option.none => 0)

/-! ## Theorems and witnesses -/

lemma seenLookup_seenSet_self (seen : List (String × Nat)) (c : String) (n : Nat) :
    seenLookup (seenSet seen c n) c = some n := by
  induction seen with
  | nil => simp [seenSet, seenLookup]
  | cons kv rest ih =>
      obtain ⟨k, v⟩ := kv
      by_cases h : k = c <;> simp [seenSet, seenLookup, h, ih]

lemma seenLookup_seenSet_ne (seen : List (String × Nat)) (c d : String) (n : Nat)
    (h : c ≠ d) : seenLookup (seenSet seen c n) d = seenLookup seen d := by
  induction seen with
  | nil => simp [seenSet, seenLookup, h]
  | cons kv rest ih =>
      obtain ⟨k, v⟩ := kv
      by_cases hk : k = c
      · subst hk
        simp [seenSet, seenLookup, h]
      · simp [seenSet, seenLookup, hk, ih]

lemma seenInv_step (pre : List String) (seen : List (String × Nat)) (c : String)
    (h : SeenInv pre seen) : SeenInv (pre ++ [c]) (seenSet seen c (pre.count c)) := by
  intro d
  by_cases hdc : d = c
  · subst hdc
    rw [seenLookup_seenSet_self]
    simp [List.count_append]
  · have hcount : List.count d (pre ++ [c]) = List.count d pre := by
      rw [List.count_append]
      have : List.count d [c] = 0 := by
        simp [List.count_singleton']
        exact fun he => hdc he.symm
      omega
    rw [seenLookup_seenSet_ne _ _ _ _ (fun he => hdc he.symm), h d, hcount]

lemma dedupAux_eq_spec (cols : List String) :
    ∀ (pre : List String) (seen : List (String × Nat)), SeenInv pre seen →
      dedupAux seen cols = dedupSpec pre cols := by
  induction cols with
  | nil => intro pre seen _; rfl
  | cons c rest ih =>
      intro pre seen hinv
      have hc := hinv c
      have hnext := seenInv_step pre seen c hinv
      by_cases h0 : pre.count c = 0
      · rw [h0] at hc
        simp only [if_pos rfl] at hc
        rw [h0] at hnext
        simp [dedupAux, dedupSpec, hc, h0, ih _ _ hnext]
      · rw [if_neg h0] at hc
        have h1 : pre.count c - 1 + 1 = pre.count c := by omega
        simp only [dedupAux, dedupSpec, hc, if_neg h0, h1]
        exact congrArg _ (ih _ _ hnext)

lemma dedup_cols_eq_spec (cols : List String) : _dedup_cols cols = dedupSpec [] cols := by
  apply dedupAux_eq_spec
  intro c
  simp [seenLookup]

lemma dedupSpec_length (cols : List String) :
    ∀ pre : List String, (dedupSpec pre cols).length = cols.length := by
  induction cols with
  | nil => intro pre; rfl
  | cons c rest ih => intro pre; simp [dedupSpec, ih]

lemma dedupSpec_getD (cols : List String) :
    ∀ (pre : List String) (i : Nat), i < cols.length →
      (dedupSpec pre cols).getD i "" =
        (if (pre ++ cols.take i).count (cols.getD i "") = 0 then cols.getD i ""
         else cols.getD i "" ++ "_" ++ toString ((pre ++ cols.take i).count (cols.getD i ""))) := by
  induction cols with
  | nil => intro pre i h; simp at h
  | cons c rest ih =>
      intro pre i h
      cases i with
      | zero => simp [dedupSpec]
      | succ j =>
          have hj : j < rest.length := by simpa using h
          have h2 := ih (pre ++ [c]) j hj
          have ha : pre ++ (c :: rest.take j) = (pre ++ [c]) ++ rest.take j := by simp
          simp only [dedupSpec, List.getD_cons_succ, List.take_succ_cons, ha]
          exact h2

lemma dedupSpec_of_counts (cols : List String) :
    ∀ pre : List String, cols.Nodup → (∀ c ∈ cols, pre.count c = 0) →
      dedupSpec pre cols = cols := by
  induction cols with
  | nil => intro pre _ _; rfl
  | cons c rest ih =>
      intro pre hnd hz
      have hc : pre.count c = 0 := hz c (by simp)
      have hrest : ∀ d ∈ rest, (pre ++ [c]).count d = 0 := by
        intro d hd
        have hdz : pre.count d = 0 := hz d (by simp [hd])
        have hne : d ≠ c := by
          intro he
          subst he
          exact (List.nodup_cons.mp hnd).1 hd
        rw [List.count_append]
        have : List.count d [c] = 0 := by
          simp [List.count_singleton']
          exact fun he => hne he.symm
        omega
      simp [dedupSpec, hc, ih (pre ++ [c]) (List.nodup_cons.mp hnd).2 hrest]

/-- C9: `_dedup_cols` preserves the length, keeps the first occurrence of
each name unchanged at its position, renames the k-th subsequent duplicate
of a name `c` to `c ++ "_" ++ k` counting k from 1, and returns an
already-unique list unchanged. -/
theorem dedup_cols_correct (cols : List String) :
    (_dedup_cols cols).length = cols.length ∧
    (∀ i, i < cols.length → (cols.take i).count (cols.getD i "") = 0 →
      (_dedup_cols cols).getD i "" = cols.getD i "") ∧
    (∀ i k, i < cols.length → (cols.take i).count (cols.getD i "") = k → 1 ≤ k →
      (_dedup_cols cols).getD i "" = cols.getD i "" ++ "_" ++ toString k) ∧
    (cols.Nodup → _dedup_cols cols = cols) := by
  rw [dedup_cols_eq_spec]
  refine ⟨dedupSpec_length cols [], ?_, ?_, ?_⟩
  · intro i hi h0
    rw [dedupSpec_getD cols [] i hi, List.nil_append, h0, if_pos rfl]
  · intro i k hi hk h1
    rw [dedupSpec_getD cols [] i hi]
    rw [List.nil_append] at *
    rw [hk, if_neg (by omega)]
  · intro hnd
    exact dedupSpec_of_counts cols [] hnd (fun c _ => List.count_nil c)

/-- C9 witness: a concrete duplicate gets the suffix and a unique list is
returned unchanged. -/
theorem dedup_cols_correct_witness :
    (_dedup_cols ["a", "b", "a"]).getD 2 "" = "a" ++ "_" ++ toString 1 ∧
    _dedup_cols ["x", "y"] = ["x", "y"] :=
  ⟨(dedup_cols_correct ["a", "b", "a"]).2.2.1 2 1 (by decide) (by decide) (by decide),
   (dedup_cols_correct ["x", "y"]).2.2.2 (by decide)⟩

/-- C8: `time_str_to_seconds` is total — it returns `None` on Python `None`,
on any non-string argument, and on any string that is not exactly two
colon-separated integer fields, and returns `60 * m + s` on every string
splitting into integer fields `m` and `s`. -/
theorem time_str_to_seconds_total_spec :
    time_str_to_seconds PyStrArg.none = Option.none ∧
    time_str_to_seconds PyStrArg.other = Option.none ∧
    (∀ s : List Char, twoIntFields s = false → time_str_to_seconds (.str s) = Option.none) ∧
    (∀ (s a b : List Char) (m n : Int), splitColon s = [a, b] → pyInt a = some m →
      pyInt b = some n → time_str_to_seconds (.str s) = some (60 * m + n)) := by
  refine ⟨rfl, rfl, ?_, ?_⟩
  · intro s h
    by_cases hs : s = []
    · simp [time_str_to_seconds, hs]
    · simp only [time_str_to_seconds]
      rw [if_neg hs]
      unfold twoIntFields at h
      rcases hsp : splitColon s with _ | ⟨x, _ | ⟨y, _ | ⟨z, w⟩⟩⟩ <;> try rfl
      rw [hsp] at h
      cases hx : pyInt x <;> cases hy : pyInt y <;>
        simp [hx, hy] at h ⊢
  · intro s a b m n hsp ha hb
    have hs : s ≠ [] := by
      intro he
      subst he
      simp [splitColon] at hsp
    simp only [time_str_to_seconds]
    rw [if_neg hs, hsp]
    simp [ha, hb, Int.mul_comm]

/-- C8 witness: the string 12:34 yields 754 seconds. -/
theorem time_str_to_seconds_witness :
    time_str_to_seconds (.str "12:34".toList) = some 754 :=
  (time_str_to_seconds_total_spec.2.2.2 "12:34".toList "12".toList "34".toList 12 34
    (by decide) (by decide) (by decide)).trans (by decide)

/-- C10: for every source string outside the three known keys,
`getTeamsData` prints the fallback warning and then raises `RuntimeError`
(the fallback key is absent from its URL table), so no unknown source ever
returns team data. -/
theorem getTeamsData_unknown_source_raises (fetch : String → PyResult PyVal)
    (now source : String) (h1 : source ≠ "calendar") (h2 : source ≠ "franchise")
    (h3 : source ≠ "records") :
    getTeamsData fetch now source =
      ([.invalidSourceFallback source], .raised .runtimeError) := by
  have hl : tableGet teamsSourceUrls source = Option.none := by
    simp only [teamsSourceUrls, tableGet]
    rw [if_neg (fun he => h1 he.symm), if_neg (fun he => h2 he.symm),
        if_neg (fun he => h3 he.symm)]
  have hd : tableGet teamsSourceUrls "default" = Option.none := by decide
  simp [getTeamsData, hl, hd]

/-- C10 witness: the concrete unknown source bogus raises. -/
theorem getTeamsData_unknown_source_witness :
    getTeamsData (fun _ => .ok (.list [])) "2024-01-01" "bogus" =
      ([.invalidSourceFallback "bogus"], .raised .runtimeError) :=
  getTeamsData_unknown_source_raises _ _ _ (by decide) (by decide) (by decide)

/-- C4 counterexample: with a failing fetch, `getGameData` does not return a
value — it raises `RuntimeError` to its caller, so the per-game entry point
does not return a typed failure on every input. -/
theorem getGameData_counterexample :
    getGameData (fun _ => .raised .valueError) (fun _ => .ok .none) "t" "1" false
        = .raised .runtimeError ∧
    ∀ v, getGameData (fun _ => .raised .valueError) (fun _ => .ok .none) "t" "1" false
        ≠ .ok v := by
  refine ⟨rfl, ?_⟩
  intro v h
  rw [show getGameData (fun _ => .raised .valueError) (fun _ => .ok .none) "t" "1" false
      = .raised .runtimeError from rfl] at h
  exact PyResult.noConfusion h

/-- C4 amended: `getGameData` either returns the enriched game data or
raises exactly `RuntimeError` — every internal error (fetch failure, empty
or non-dict response, unparseable play stream) is re-raised as
`RuntimeError`, and nothing else escapes. -/
theorem getGameData_ok_or_runtimeError (fetch goalFetch : String → PyResult PyVal)
    (now game : String) (flag : Bool) :
    (∃ v, getGameData fetch goalFetch now game flag = .ok v) ∨
      getGameData fetch goalFetch now game flag = .raised .runtimeError := by
  unfold getGameData
  rcases hf : fetch ("https://api-web.nhle.com/v1/gamecenter/" ++ game ++ "/play-by-play")
    with v | e
  · rcases v with fs | xs | s | n | _
    · by_cases he : fs.isEmpty
      · right
        simp [hf, he]
      · rcases hit : pyIter ((dictGet fs "plays").getD (.list [])) with plays | e2
        · rcases hen : enrichPlays goalFetch flag fs now plays with enr | e3
          · left
            refine ⟨PyVal.dict (dictSet (dictSet (dictSet fs "plays" (PyVal.list enr))
              "scrapedOn" (PyVal.str now)) "source" (PyVal.str "NHL Play-by-Play API")), ?_⟩
            simp [hf, he, hit, hen]
          · right
            simp [hf, he, hit, hen]
        · right
          simp [hf, he, hit]
    · right
      simp [hf]
    · right
      simp [hf]
    · right
      simp [hf]
    · right
      simp [hf]
  · right
    simp [hf]

/-- C7: in the batch game loop, the collected per-game stats are exactly the
entry lists of the games whose processing body succeeded (in order), and the
logged failures are exactly the games whose body raised, paired with their
exceptions — a failure is caught at the boundary of its own game, contributes no
entries, and never stops the remaining games from being processed. -/
theorem game_loop_isolation {α : Type} (process : Nat → PyResult (List α))
    (games : List Nat) :
    (gameLoop process games).1 =
        (games.filter (fun g => (process g).isOk)).map (fun g => resultEntries (process g)) ∧
    (gameLoop process games).2 =
        (games.filter (fun g => !(process g).isOk)).map (fun g => (g, resultExc (process g))) := by
  induction games with
  | nil => exact ⟨rfl, rfl⟩
  | cons g rest ih =>
      rcases h : process g with l | e <;>
        simp [gameLoop, h, List.filter_cons, PyResult.isOk, resultEntries, resultExc,
          ih.1, ih.2]

lemma StatLine.add_zero_line (x : StatLine) : x.add StatLine.zero = x := by
  cases x
  simp [StatLine.add, StatLine.zero]

lemma StatLine.zero_add_line (x : StatLine) : StatLine.zero.add x = x := by
  cases x
  simp [StatLine.add, StatLine.zero]

lemma StatLine.add_assoc_line (x y z : StatLine) :
    (x.add y).add z = x.add (y.add z) := by
  cases x
  cases y
  cases z
  simp only [StatLine.add, StatLine.mk.injEq]
  and_intros <;> ring

lemma StatLine.add_comm_line (x y : StatLine) : x.add y = y.add x := by
  cases x
  cases y
  simp only [StatLine.add, StatLine.mk.injEq]
  and_intros <;> ring

lemma StatLine.add_right_comm_line (x y z : StatLine) :
    (x.add y).add z = (x.add z).add y := by
  rw [StatLine.add_assoc_line, StatLine.add_comm_line y z, StatLine.add_assoc_line]

lemma StatLine.smul_zero_line (d : StatLine) : StatLine.smul 0 d = StatLine.zero := by
  cases d
  simp [StatLine.smul, StatLine.zero]

lemma StatLine.smul_succ_line (n : Nat) (d : StatLine) :
    StatLine.smul (n + 1) d = (StatLine.smul n d).add d := by
  cases d
  simp only [StatLine.smul, StatLine.add, StatLine.mk.injEq]
  and_intros <;> push_cast <;> ring

lemma lookupL_bump_self (l : Ledger) (k : LKey) (d : StatLine) :
    lookupL (bump l k d) k = (lookupL l k).add d := by
  induction l with
  | nil => simp [bump, lookupL, StatLine.zero_add_line]
  | cons kv rest ih =>
      obtain ⟨k0, v0⟩ := kv
      by_cases h : k0 = k
      · subst h
        simp [bump, lookupL]
      · simp [bump, lookupL, h, ih]

lemma lookupL_bump_ne (l : Ledger) (k k2 : LKey) (d : StatLine) (h : k2 ≠ k) :
    lookupL (bump l k d) k2 = lookupL l k2 := by
  have h2 : k ≠ k2 := Ne.symm h
  induction l with
  | nil => simp [bump, lookupL, h2]
  | cons kv rest ih =>
      obtain ⟨k0, v0⟩ := kv
      by_cases h0 : k0 = k
      · subst h0
        simp [bump, lookupL, h2]
      · simp [bump, lookupL, h0, ih]

lemma creditPlayers_cons (tm : String) (lab : StrengthLabel) (d : StatLine)
    (p : Nat) (ps : List Nat) (l : Ledger) :
    creditPlayers tm lab d (p :: ps) l = creditPlayers tm lab d ps (bump l ⟨p, tm, lab⟩ d) := by
  simp [creditPlayers, List.foldl_cons]

lemma lookupL_creditPlayers (tm : String) (lab : StrengthLabel) (d : StatLine)
    (ps : List Nat) (l : Ledger) (k : LKey) :
    lookupL (creditPlayers tm lab d ps l) k =
      (lookupL l k).add (StatLine.smul (creditCount tm lab ps k) d) := by
  induction ps generalizing l with
  | nil =>
      simp [creditPlayers, creditCount]
      by_cases h : k.team = tm ∧ k.label = lab <;>
        simp [h, StatLine.smul_zero_line, StatLine.add_zero_line]
  | cons p ps ih =>
      rw [creditPlayers_cons, ih]
      by_cases hk : k = (⟨p, tm, lab⟩ : LKey)
      · subst hk
        rw [lookupL_bump_self]
        have hc : creditCount tm lab (p :: ps) (⟨p, tm, lab⟩ : LKey) =
            creditCount tm lab ps (⟨p, tm, lab⟩ : LKey) + 1 := by
          simp [creditCount, List.count_cons]
        rw [hc, StatLine.smul_succ_line, ← StatLine.add_assoc_line,
          StatLine.add_right_comm_line]
      · rw [lookupL_bump_ne _ _ _ _ hk]
        have hc : creditCount tm lab (p :: ps) k = creditCount tm lab ps k := by
          by_cases h : k.team = tm ∧ k.label = lab
          · have hp : k.player ≠ p := by
              intro he
              apply hk
              cases k
              simp_all
            simp [creditCount, h, List.count_cons, hp]
          · simp [creditCount, h]
        rw [hc]

lemma sumSecondsBy_bump (f : LKey → Bool) (l : Ledger) (k : LKey) (d : StatLine) :
    sumSecondsBy f (bump l k d) =
      sumSecondsBy f l + (if f k then d.seconds else 0) := by
  induction l with
  | nil => by_cases h : f k <;> simp [bump, sumSecondsBy, h]
  | cons kv rest ih =>
      obtain ⟨k0, v0⟩ := kv
      by_cases h0 : k0 = k
      · subst h0
        by_cases h : f k0 <;> simp [bump, sumSecondsBy, h, StatLine.add] <;> omega
      · simp [bump, sumSecondsBy, h0, ih]
        omega

lemma sumSecondsBy_creditPlayers (f : LKey → Bool) (tm : String) (lab : StrengthLabel)
    (d : StatLine) (ps : List Nat) (l : Ledger) :
    sumSecondsBy f (creditPlayers tm lab d ps l) =
      sumSecondsBy f l + (ps.countP (fun p => f ⟨p, tm, lab⟩)) * d.seconds := by
  induction ps generalizing l with
  | nil => simp [creditPlayers]
  | cons p ps ih =>
      rw [creditPlayers_cons, ih, sumSecondsBy_bump]
      by_cases h : f (⟨p, tm, lab⟩ : LKey) <;>
        simp [List.countP_cons, h] <;> ring

/-- C5: the shift-anomaly policy of the timeline builder — an OFF for a player not
on ice leaves both on-ice sets unchanged and logs an orphan-OFF anomaly; an
ON for a player already on ice is idempotent and logs a duplicate-ON
anomaly; an ON for a new player always grows the literal skater count by
one, with no clamping at any size. -/
theorem shift_anomaly_policy (cfg : PipelineCfg) (st : SweepSt) (e : RawEvent)
    (hA : e.team = cfg.tA) (hg : e.isGoalie = false) :
    (e.kind = .shiftOff → e.player ∉ st.a.skaters →
      (applyEvent cfg st e).a = st.a ∧ (applyEvent cfg st e).b = st.b ∧
      (applyEvent cfg st e).anomalies = st.anomalies ++ [.orphanOff e.team e.player]) ∧
    (e.kind = .shiftOn → e.player ∈ st.a.skaters →
      (applyEvent cfg st e).a = st.a ∧ (applyEvent cfg st e).b = st.b ∧
      (applyEvent cfg st e).anomalies = st.anomalies ++ [.duplicateOn e.team e.player]) ∧
    (e.kind = .shiftOn → e.player ∉ st.a.skaters →
      (applyEvent cfg st e).a.skaters = e.player :: st.a.skaters ∧
      (applyEvent cfg st e).a.skaters.length = st.a.skaters.length + 1) := by
  obtain ⟨k, t, tm, p, g, x⟩ := e
  dsimp only at hA hg ⊢
  subst hA
  subst hg
  refine ⟨?_, ?_, ?_⟩
  · intro hk hp
    subst hk
    simp [applyEvent, applyOffTeam, hp]
  · intro hk hp
    subst hk
    simp [applyEvent, applyOnTeam, hp]
  · intro hk hp
    subst hk
    simp [applyEvent, applyOnTeam, hp]

/-- C5 witness: a concrete orphan OFF is ignored and logged. -/
theorem shift_anomaly_policy_witness :
    (applyEvent ⟨"OTT", "WPG", false⟩
        ⟨⟨[7], []⟩, ⟨[], []⟩, 0, [], [], []⟩ ⟨.shiftOff, 5, "OTT", 9, false, 0⟩).a
      = ⟨[7], []⟩ ∧
    (applyEvent ⟨"OTT", "WPG", false⟩
        ⟨⟨[7], []⟩, ⟨[], []⟩, 0, [], [], []⟩ ⟨.shiftOff, 5, "OTT", 9, false, 0⟩).b
      = ⟨[], []⟩ ∧
    (applyEvent ⟨"OTT", "WPG", false⟩
        ⟨⟨[7], []⟩, ⟨[], []⟩, 0, [], [], []⟩ ⟨.shiftOff, 5, "OTT", 9, false, 0⟩).anomalies
      = [] ++ [.orphanOff "OTT" 9] :=
  (shift_anomaly_policy ⟨"OTT", "WPG", false⟩
    ⟨⟨[7], []⟩, ⟨[], []⟩, 0, [], [], []⟩ ⟨.shiftOff, 5, "OTT", 9, false, 0⟩
    rfl rfl).1 rfl (by decide)

/-- C6: the pipeline is a pure function of its input event list — two runs on
identical input produce the same sweep state and byte-identical serialized
player and team ledgers, including row ordering. -/
theorem pipeline_deterministic (cfg : PipelineCfg) (e1 e2 : List RawEvent)
    (h : e1 = e2) :
    pipeline cfg e1 = pipeline cfg e2 ∧
    serializeLedger (pipeline cfg e1).ledger = serializeLedger (pipeline cfg e2).ledger ∧
    serializeLedger (pipeline cfg e1).teamLedger
      = serializeLedger (pipeline cfg e2).teamLedger := by
  subst h
  exact ⟨rfl, rfl, rfl⟩

/-- C6 witness: the two runs agree on a concrete input. -/
theorem pipeline_deterministic_witness :
    pipeline ⟨"OTT", "WPG", false⟩ [⟨.shiftOn, 0, "OTT", 1, false, 0⟩]
        = pipeline ⟨"OTT", "WPG", false⟩ [⟨.shiftOn, 0, "OTT", 1, false, 0⟩] ∧
    serializeLedger (pipeline ⟨"OTT", "WPG", false⟩ [⟨.shiftOn, 0, "OTT", 1, false, 0⟩]).ledger
        = serializeLedger (pipeline ⟨"OTT", "WPG", false⟩ [⟨.shiftOn, 0, "OTT", 1, false, 0⟩]).ledger :=
  ⟨(pipeline_deterministic ⟨"OTT", "WPG", false⟩ _ _ rfl).1,
   (pipeline_deterministic ⟨"OTT", "WPG", false⟩ _ _ rfl).2.1⟩

lemma chVal_digitChar (n : Nat) (h : n < 10) : chVal (Nat.digitChar n) = n := by
  interval_cases n <;> rfl

lemma digitChar_ne_v (n : Nat) (h : n < 10) : Nat.digitChar n ≠ 'v' := by
  interval_cases n <;> decide

lemma natChars_not_v (n : Nat) : 'v' ∉ natChars n := by
  induction n using Nat.strong_induction_on with
  | _ n ih =>
      rw [natChars]
      by_cases h : n < 10
      · simp [h]
        exact fun he => digitChar_ne_v n h he.symm
      · rw [dif_neg h]
        intro hmem
        rcases List.mem_append.mp hmem with h1 | h2
        · exact ih (n / 10) (Nat.div_lt_self (by omega) (by omega)) h1
        · have := List.mem_singleton.mp h2
          exact digitChar_ne_v (n % 10) (Nat.mod_lt n (by omega)) this.symm

lemma parseChars_append_one (xs : List Char) (d : Char) :
    parseChars (xs ++ [d]) = parseChars xs * 10 + chVal d := by
  simp [parseChars, List.foldl_append]

lemma parseChars_natChars (n : Nat) : parseChars (natChars n) = n := by
  induction n using Nat.strong_induction_on with
  | _ n ih =>
      rw [natChars]
      by_cases h : n < 10
      · rw [dif_pos h]
        simp [parseChars, chVal_digitChar n h]
      · rw [dif_neg h, parseChars_append_one,
          ih (n / 10) (Nat.div_lt_self (by omega) (by omega)),
          chVal_digitChar (n % 10) (Nat.mod_lt n (by omega))]
        omega

lemma append_v_inj (a1 : List Char) :
    ∀ (a2 b1 b2 : List Char), 'v' ∉ a1 → 'v' ∉ a2 →
      a1 ++ 'v' :: b1 = a2 ++ 'v' :: b2 → a1 = a2 ∧ b1 = b2 := by
  induction a1 with
  | nil =>
      intro a2 b1 b2 _ h2 he
      cases a2 with
      | nil => simpa using he
      | cons c a2 =>
          exfalso
          simp only [List.nil_append, List.cons_append, List.cons.injEq] at he
          rw [← he.1] at h2
          exact h2 (List.mem_cons_self _ _)
  | cons c a1 ih =>
      intro a2 b1 b2 h1 h2 he
      cases a2 with
      | nil =>
          exfalso
          simp only [List.cons_append, List.nil_append, List.cons.injEq] at he
          exact h1 (by simp [he.1])
      | cons d a2 =>
          simp only [List.cons_append, List.cons.injEq] at he
          have hrec := ih a2 b1 b2 (fun hm => h1 (List.mem_cons_of_mem _ hm))
            (fun hm => h2 (List.mem_cons_of_mem _ hm)) he.2
          exact ⟨by rw [he.1, hrec.1], hrec.2⟩

lemma renderLabel_eq_iff (m n m2 n2 : Nat) :
    renderLabel ⟨m, n⟩ = renderLabel ⟨m2, n2⟩ ↔ (m = m2 ∧ n = n2) := by
  constructor
  · intro h
    have hdata : natChars m ++ 'v' :: natChars n = natChars m2 ++ 'v' :: natChars n2 :=
      congrArg String.data h
    have := append_v_inj (natChars m) (natChars m2) (natChars n) (natChars n2)
      (natChars_not_v m) (natChars_not_v m2) hdata
    constructor
    · rw [← parseChars_natChars m, ← parseChars_natChars m2, this.1]
    · rw [← parseChars_natChars n, ← parseChars_natChars n2, this.2]
  · intro h
    rw [h.1, h.2]

lemma lookupL_bump (l : Ledger) (kk : LKey) (d : StatLine) (k : LKey) :
    lookupL (bump l kk d) k = (lookupL l k).add (if k = kk then d else StatLine.zero) := by
  by_cases h : k = kk
  · subst h
    rw [lookupL_bump_self, if_pos rfl]
  · rw [lookupL_bump_ne _ _ _ _ h, if_neg h, StatLine.add_zero_line]

lemma lookupL_bump_congr (l1 l2 : Ledger) (hl : ∀ k, lookupL l1 k = lookupL l2 k)
    (kk : LKey) (d : StatLine) :
    ∀ k, lookupL (bump l1 kk d) k = lookupL (bump l2 kk d) k := by
  intro k
  rw [lookupL_bump, lookupL_bump, hl]

lemma lookupL_bump2_comm (l1 l2 : Ledger) (hl : ∀ k, lookupL l1 k = lookupL l2 k)
    (k1 k2 : LKey) (d1 d2 : StatLine) :
    ∀ k, lookupL (bump (bump l1 k1 d1) k2 d2) k
        = lookupL (bump (bump l2 k2 d2) k1 d1) k := by
  intro k
  rw [lookupL_bump, lookupL_bump, lookupL_bump, lookupL_bump, hl,
    StatLine.add_right_comm_line]

lemma lookupL_credit2_comm (l1 l2 : Ledger) (hl : ∀ k, lookupL l1 k = lookupL l2 k)
    (t1 t2 : String) (lab1 lab2 : StrengthLabel) (d1 d2 : StatLine)
    (ps1 ps2 : List Nat) :
    ∀ k, lookupL (creditPlayers t2 lab2 d2 ps2 (creditPlayers t1 lab1 d1 ps1 l1)) k
        = lookupL (creditPlayers t1 lab1 d1 ps1 (creditPlayers t2 lab2 d2 ps2 l2)) k := by
  intro k
  rw [lookupL_creditPlayers, lookupL_creditPlayers, lookupL_creditPlayers,
    lookupL_creditPlayers, hl, StatLine.add_right_comm_line]

lemma creditedList_swapCfg (cfg : PipelineCfg) (ts : TeamSt) :
    creditedList (swapCfg cfg) ts = creditedList cfg ts := rfl

lemma swapRel_closeInterval (cfg : PipelineCfg) (st1 st2 : SweepSt) (tNew : Nat)
    (h : SwapRel st1 st2) :
    SwapRel (closeInterval cfg st1 tNew) (closeInterval (swapCfg cfg) st2 tNew) := by
  obtain ⟨ha, hb, ht, hl, htl, han⟩ := h
  unfold closeInterval
  rw [← ht, ← ha, ← hb]
  by_cases hd : tNew - st1.t = 0
  · rw [if_pos hd, if_pos hd]
    exact ⟨rfl, rfl, rfl, hl, htl, han⟩
  · rw [if_neg hd, if_neg hd]
    refine ⟨rfl, rfl, rfl, ?_, ?_, han⟩
    · exact lookupL_credit2_comm st1.ledger st2.ledger hl cfg.tA cfg.tB _ _ _ _ _ _
    · exact lookupL_bump2_comm st1.teamLedger st2.teamLedger htl _ _ _ _

lemma swapRel_applyEvent (cfg : PipelineCfg) (st1 st2 : SweepSt) (e : RawEvent)
    (hAB : cfg.tA ≠ cfg.tB) (h : SwapRel st1 st2) :
    SwapRel (applyEvent cfg st1 e) (applyEvent (swapCfg cfg) st2 e) := by
  obtain ⟨ha, hb, ht, hl, htl, han⟩ := h
  obtain ⟨k, t, tm, p, g, x⟩ := e
  have hsA : (swapCfg cfg).tA = cfg.tB := rfl
  have hsB : (swapCfg cfg).tB = cfg.tA := rfl
  have hBA : cfg.tB ≠ cfg.tA := Ne.symm hAB
  cases k
  case shiftOn =>
    by_cases h1 : tm = cfg.tA
    · have h2 : ¬ tm = cfg.tB := by rw [h1]; exact hAB
      simp only [applyEvent, hsA, hsB, h1, h2, hAB, hBA, if_pos, if_neg, if_true, if_false]
      rw [← ha, ← han]
      exact ⟨rfl, hb, ht, hl, htl, rfl⟩
    · by_cases h2 : tm = cfg.tB
      · simp only [applyEvent, hsA, hsB, h1, h2, hAB, hBA, if_pos, if_neg, if_true, if_false]
        rw [← hb, ← han]
        exact ⟨ha, rfl, ht, hl, htl, rfl⟩
      · simp only [applyEvent, hsA, hsB, h1, h2, hAB, hBA, if_neg, if_false]
        exact ⟨ha, hb, ht, hl, htl, han⟩
  case shiftOff =>
    by_cases h1 : tm = cfg.tA
    · have h2 : ¬ tm = cfg.tB := by rw [h1]; exact hAB
      simp only [applyEvent, hsA, hsB, h1, h2, hAB, hBA, if_pos, if_neg, if_true, if_false]
      rw [← ha, ← han]
      exact ⟨rfl, hb, ht, hl, htl, rfl⟩
    · by_cases h2 : tm = cfg.tB
      · simp only [applyEvent, hsA, hsB, h1, h2, hAB, hBA, if_pos, if_neg, if_true, if_false]
        rw [← hb, ← han]
        exact ⟨ha, rfl, ht, hl, htl, rfl⟩
      · simp only [applyEvent, hsA, hsB, h1, h2, hAB, hBA, if_neg, if_false]
        exact ⟨ha, hb, ht, hl, htl, han⟩
  case periodEnd => exact ⟨ha, hb, ht, hl, htl, han⟩
  case gameEnd => exact ⟨ha, hb, ht, hl, htl, han⟩
  all_goals {
    by_cases h1 : tm = cfg.tA
    · have h2 : ¬ tm = cfg.tB := by rw [h1]; exact hAB
      simp only [applyEvent, applyShot, hsA, hsB, h1, h2, hAB, hBA, if_pos, if_neg, if_true, if_false]
      rw [← ha, ← hb]
      refine ⟨rfl, rfl, ht, ?_, ?_, han⟩
      · exact lookupL_credit2_comm st1.ledger st2.ledger hl cfg.tA cfg.tB _ _ _ _ _ _
      · exact lookupL_bump_congr _ _ (lookupL_bump_congr _ _ htl _ _) _ _
    · by_cases h2 : tm = cfg.tB
      · simp only [applyEvent, applyShot, hsA, hsB, h1, h2, hAB, hBA, if_pos, if_neg, if_true, if_false]
        rw [← ha, ← hb]
        refine ⟨rfl, rfl, ht, ?_, ?_, han⟩
        · exact lookupL_credit2_comm st1.ledger st2.ledger hl cfg.tA cfg.tB _ _ _ _ _ _
        · exact lookupL_bump_congr _ _ (lookupL_bump_congr _ _ htl _ _) _ _
      · simp only [applyEvent, applyShot, hsA, hsB, h1, h2, hAB, hBA, if_neg, if_false]
        exact ⟨ha, hb, ht, hl, htl, han⟩ }

lemma swapRel_stepEvent (cfg : PipelineCfg) (st1 st2 : SweepSt) (e : RawEvent)
    (hAB : cfg.tA ≠ cfg.tB) (h : SwapRel st1 st2) :
    SwapRel (stepEvent cfg st1 e) (stepEvent (swapCfg cfg) st2 e) :=
  swapRel_applyEvent cfg _ _ e hAB (swapRel_closeInterval cfg st1 st2 e.elapsed h)

lemma swapRel_runEvents (cfg : PipelineCfg) (hAB : cfg.tA ≠ cfg.tB)
    (evs : List RawEvent) :
    ∀ st1 st2, SwapRel st1 st2 →
      SwapRel (runEvents cfg st1 evs) (runEvents (swapCfg cfg) st2 evs) := by
  induction evs with
  | nil => intro st1 st2 h; exact h
  | cons e rest ih =>
      intro st1 st2 h
      exact ih _ _ (swapRel_stepEvent cfg st1 st2 e hAB h)

lemma swapRel_init : SwapRel initSweep initSweep :=
  ⟨rfl, rfl, rfl, fun _ => rfl, fun _ => rfl, rfl⟩

/-- C1: strength labels are reciprocal pairs — a team with m skaters against
n opponents gets label mvn while the opponent gets nvm, the two labels are
equal (as pairs and as rendered strings) exactly when m equals n, every
closed interval credits each team under its own-perspective label, and
exchanging which team occupies the first slot leaves every ledger entry of
each team unchanged (no dependence on any global ordering of team names). -/
theorem strength_label_reciprocity (m n : Nat) (cfg : PipelineCfg)
    (evs : List RawEvent) (hAB : cfg.tA ≠ cfg.tB) :
    ((⟨m, n⟩ : StrengthLabel) = ⟨n, m⟩ ↔ m = n) ∧
    (renderLabel ⟨m, n⟩ = renderLabel ⟨n, m⟩ ↔ m = n) ∧
    (∀ (st : SweepSt) (tNew : Nat), st.a.skaters.length = m → st.b.skaters.length = n →
      st.t < tNew →
      lookupL (closeInterval cfg st tNew).teamLedger ⟨0, cfg.tA, ⟨m, n⟩⟩
          = (lookupL st.teamLedger ⟨0, cfg.tA, ⟨m, n⟩⟩).add (secondsLine (tNew - st.t)) ∧
      lookupL (closeInterval cfg st tNew).teamLedger ⟨0, cfg.tB, ⟨n, m⟩⟩
          = (lookupL st.teamLedger ⟨0, cfg.tB, ⟨n, m⟩⟩).add (secondsLine (tNew - st.t))) ∧
    (∀ k, lookupL (pipeline cfg evs).ledger k
        = lookupL (pipeline (swapCfg cfg) evs).ledger k) ∧
    (∀ k, lookupL (pipeline cfg evs).teamLedger k
        = lookupL (pipeline (swapCfg cfg) evs).teamLedger k) := by
  have hrun := swapRel_runEvents cfg hAB (sortEvents evs) initSweep initSweep swapRel_init
  refine ⟨?_, ?_, ?_, hrun.2.2.2.1, hrun.2.2.2.2.1⟩
  · simp only [StrengthLabel.mk.injEq]
    omega
  · rw [renderLabel_eq_iff]
    omega
  · intro st tNew h1 h2 hlt
    subst h1
    subst h2
    have hd : ¬ tNew - st.t = 0 := by omega
    have hne1 : (⟨0, cfg.tA, ⟨st.a.skaters.length, st.b.skaters.length⟩⟩ : LKey)
        ≠ ⟨0, cfg.tB, ⟨st.b.skaters.length, st.a.skaters.length⟩⟩ :=
      fun he => hAB (congrArg LKey.team he)
    have hne2 : (⟨0, cfg.tB, ⟨st.b.skaters.length, st.a.skaters.length⟩⟩ : LKey)
        ≠ ⟨0, cfg.tA, ⟨st.a.skaters.length, st.b.skaters.length⟩⟩ :=
      fun he => hAB (congrArg LKey.team he).symm
    unfold closeInterval
    rw [if_neg hd]
    constructor
    · rw [lookupL_bump_ne _ _ _ _ hne1, lookupL_bump_self]
    · rw [lookupL_bump_self, lookupL_bump_ne _ _ _ _ hne2]

/-- C1 witness: the rendered labels 5v4 and 4v5 differ, and the ledgers of a
concrete run agree with those of the team-swapped run. -/
theorem strength_label_reciprocity_witness :
    (renderLabel ⟨5, 4⟩ = renderLabel ⟨4, 5⟩ ↔ 5 = 4) ∧
    (∀ k, lookupL (pipeline ⟨"OTT", "WPG", false⟩ [⟨.shiftOn, 0, "OTT", 1, false, 0⟩]).ledger k
        = lookupL (pipeline (swapCfg ⟨"OTT", "WPG", false⟩)
            [⟨.shiftOn, 0, "OTT", 1, false, 0⟩]).ledger k) :=
  ⟨(strength_label_reciprocity 5 4 ⟨"OTT", "WPG", false⟩
      [⟨.shiftOn, 0, "OTT", 1, false, 0⟩] (by decide)).2.1,
   (strength_label_reciprocity 5 4 ⟨"OTT", "WPG", false⟩
      [⟨.shiftOn, 0, "OTT", 1, false, 0⟩] (by decide)).2.2.2.1⟩

lemma closeInterval_a (cfg : PipelineCfg) (st : SweepSt) (tNew : Nat) :
    (closeInterval cfg st tNew).a = st.a := by
  unfold closeInterval
  by_cases hd : tNew - st.t = 0
  · rw [if_pos hd]
  · rw [if_neg hd]

lemma closeInterval_b (cfg : PipelineCfg) (st : SweepSt) (tNew : Nat) :
    (closeInterval cfg st tNew).b = st.b := by
  unfold closeInterval
  by_cases hd : tNew - st.t = 0
  · rw [if_pos hd]
  · rw [if_neg hd]

lemma closeInterval_sf (cfg : PipelineCfg) (st : SweepSt) (tNew : Nat) (k : LKey) :
    (lookupL (closeInterval cfg st tNew).ledger k).sf = (lookupL st.ledger k).sf := by
  unfold closeInterval
  by_cases hd : tNew - st.t = 0
  · rw [if_pos hd]
  · rw [if_neg hd]
    show (lookupL (creditPlayers _ _ _ _ (creditPlayers _ _ _ _ st.ledger)) k).sf = _
    rw [lookupL_creditPlayers, lookupL_creditPlayers]
    simp [StatLine.add, StatLine.smul, secondsLine]

lemma closeInterval_sa (cfg : PipelineCfg) (st : SweepSt) (tNew : Nat) (k : LKey) :
    (lookupL (closeInterval cfg st tNew).ledger k).sa = (lookupL st.ledger k).sa := by
  unfold closeInterval
  by_cases hd : tNew - st.t = 0
  · rw [if_pos hd]
  · rw [if_neg hd]
    show (lookupL (creditPlayers _ _ _ _ (creditPlayers _ _ _ _ st.ledger)) k).sa = _
    rw [lookupL_creditPlayers, lookupL_creditPlayers]
    simp [StatLine.add, StatLine.smul, secondsLine]

lemma count_one_of_nodup_mem {l : List Nat} {p : Nat} (hnd : l.Nodup) (hp : p ∈ l) :
    l.count p = 1 := by
  have h1 : l.count p ≤ 1 := List.nodup_iff_count_le_one.mp hnd p
  have h2 : 0 < l.count p := List.count_pos_iff_mem.mpr hp
  omega

/-- C2: whole-unit shot attribution — a shot by the first team while it has
5 skaters and the opponent 4 increments shots-for by exactly one for every
one of the 5 on-ice skaters under the label 5v4, and shots-against by
exactly one for each of the 4 opposing on-ice skaters under the
reciprocal label 4v5, not only for the shooter. -/
theorem shot_attribution (cfg : PipelineCfg) (st : SweepSt) (e : RawEvent)
    (hAB : cfg.tA ≠ cfg.tB) (hk : e.kind = .shot) (ht : e.team = cfg.tA)
    (h5 : st.a.skaters.length = 5) (h4 : st.b.skaters.length = 4)
    (hndA : st.a.skaters.Nodup) (hndB : st.b.skaters.Nodup)
    (hdA : ∀ p ∈ st.a.skaters, p ∉ st.a.goalies)
    (hdB : ∀ q ∈ st.b.skaters, q ∉ st.b.goalies) :
    (∀ p ∈ st.a.skaters,
      (lookupL (stepEvent cfg st e).ledger ⟨p, cfg.tA, ⟨5, 4⟩⟩).sf
        = (lookupL st.ledger ⟨p, cfg.tA, ⟨5, 4⟩⟩).sf + 1) ∧
    (∀ q ∈ st.b.skaters,
      (lookupL (stepEvent cfg st e).ledger ⟨q, cfg.tB, ⟨4, 5⟩⟩).sa
        = (lookupL st.ledger ⟨q, cfg.tB, ⟨4, 5⟩⟩).sa + 1) := by
  obtain ⟨k, t, tm, pl, g, x⟩ := e
  dsimp only at hk ht
  subst hk
  subst ht
  set st1 := closeInterval cfg st t with hst1
  have ha1 : st1.a = st.a := closeInterval_a cfg st t
  have hb1 : st1.b = st.b := closeInterval_b cfg st t
  have hstep : stepEvent cfg st ⟨.shot, t, cfg.tA, pl, g, x⟩
      = applyShot cfg st1 ⟨.shot, t, cfg.tA, pl, g, x⟩ := rfl
  rw [hstep]
  unfold applyShot
  rw [if_pos rfl]
  dsimp only
  rw [ha1, hb1, h5, h4]
  constructor
  · intro p hp
    rw [lookupL_creditPlayers, lookupL_creditPlayers]
    have hc2 : creditCount cfg.tB ⟨4, 5⟩ (creditedList cfg st.b)
        (⟨p, cfg.tA, ⟨5, 4⟩⟩ : LKey) = 0 := by
      simp [creditCount, hAB]
    have hc1 : creditCount cfg.tA ⟨5, 4⟩ (creditedList cfg st.a)
        (⟨p, cfg.tA, ⟨5, 4⟩⟩ : LKey) = 1 := by
      have hcs : st.a.skaters.count p = 1 := count_one_of_nodup_mem hndA hp
      have hcg : st.a.goalies.count p = 0 :=
        List.count_eq_zero_of_not_mem (hdA p hp)
      by_cases hfl : cfg.includeGoalies <;>
        simp [creditCount, creditedList, List.count_append, hfl, hcs, hcg]
    rw [hc1, hc2]
    have := closeInterval_sf cfg st t (⟨p, cfg.tA, ⟨5, 4⟩⟩ : LKey)
    simp [StatLine.add, StatLine.smul, forDelta, flipLine, ← hst1, this]
  · intro q hq
    rw [lookupL_creditPlayers, lookupL_creditPlayers]
    have hc1 : creditCount cfg.tA ⟨5, 4⟩ (creditedList cfg st.a)
        (⟨q, cfg.tB, ⟨4, 5⟩⟩ : LKey) = 0 := by
      simp [creditCount, Ne.symm hAB]
    have hc2 : creditCount cfg.tB ⟨4, 5⟩ (creditedList cfg st.b)
        (⟨q, cfg.tB, ⟨4, 5⟩⟩ : LKey) = 1 := by
      have hcs : st.b.skaters.count q = 1 := count_one_of_nodup_mem hndB hq
      have hcg : st.b.goalies.count q = 0 :=
        List.count_eq_zero_of_not_mem (hdB q hq)
      by_cases hfl : cfg.includeGoalies <;>
        simp [creditCount, creditedList, List.count_append, hfl, hcs, hcg]
    rw [hc1, hc2]
    have := closeInterval_sa cfg st t (⟨q, cfg.tB, ⟨4, 5⟩⟩ : LKey)
    simp [StatLine.add, StatLine.smul, forDelta, flipLine, ← hst1, this]

/-- C2 witness: a concrete 5-on-4 shot credits a non-shooting skater of each
team. -/
theorem shot_attribution_witness :
    (∀ p ∈ [1, 2, 3, 4, 5],
      (lookupL (stepEvent ⟨"OTT", "WPG", false⟩
          ⟨⟨[1, 2, 3, 4, 5], [90]⟩, ⟨[11, 12, 13, 14], [91]⟩, 0, [], [], []⟩
          ⟨.shot, 60, "OTT", 1, false, 0⟩).ledger ⟨p, "OTT", ⟨5, 4⟩⟩).sf
        = (lookupL ([] : Ledger) ⟨p, "OTT", ⟨5, 4⟩⟩).sf + 1) ∧
    (∀ q ∈ [11, 12, 13, 14],
      (lookupL (stepEvent ⟨"OTT", "WPG", false⟩
          ⟨⟨[1, 2, 3, 4, 5], [90]⟩, ⟨[11, 12, 13, 14], [91]⟩, 0, [], [], []⟩
          ⟨.shot, 60, "OTT", 1, false, 0⟩).ledger ⟨q, "WPG", ⟨4, 5⟩⟩).sa
        = (lookupL ([] : Ledger) ⟨q, "WPG", ⟨4, 5⟩⟩).sa + 1) :=
  shot_attribution ⟨"OTT", "WPG", false⟩
    ⟨⟨[1, 2, 3, 4, 5], [90]⟩, ⟨[11, 12, 13, 14], [91]⟩, 0, [], [], []⟩
    ⟨.shot, 60, "OTT", 1, false, 0⟩
    (by decide) rfl rfl rfl rfl (by decide) (by decide) (by decide) (by decide)

lemma keyLE_elapsed {a b : RawEvent} (h : keyLE a b) : a.elapsed ≤ b.elapsed := by
  unfold keyLE evKey at h
  have ha : kindPriority a.kind ≤ 3 := by cases a.kind <;> simp [kindPriority]
  have hb : kindPriority b.kind ≤ 3 := by cases b.kind <;> simp [kindPriority]
  omega

lemma closeInterval_t (cfg : PipelineCfg) (st : SweepSt) (tNew : Nat) :
    (closeInterval cfg st tNew).t = tNew := by
  unfold closeInterval
  by_cases hd : tNew - st.t = 0
  · rw [if_pos hd]
  · rw [if_neg hd]

lemma applyEvent_t (cfg : PipelineCfg) (st : SweepSt) (e : RawEvent) :
    (applyEvent cfg st e).t = st.t := by
  unfold applyEvent applyShot
  cases e.kind <;> dsimp only <;> split_ifs <;> rfl

lemma stepEvent_t (cfg : PipelineCfg) (st : SweepSt) (e : RawEvent) :
    (stepEvent cfg st e).t = e.elapsed := by
  unfold stepEvent
  rw [applyEvent_t, closeInterval_t]

lemma runEvents_t (cfg : PipelineCfg) :
    ∀ (evs : List RawEvent) (st : SweepSt),
      (runEvents cfg st evs).t = evs.foldl (fun _ e => e.elapsed) st.t := by
  intro evs
  induction evs with
  | nil => intro st; rfl
  | cons e rest ih =>
      intro st
      have : runEvents cfg st (e :: rest) = runEvents cfg (stepEvent cfg st e) rest := rfl
      rw [this, ih, List.foldl_cons]
      have h2 : (stepEvent cfg st e).t = e.elapsed := stepEvent_t cfg st e
      congr 1

lemma forDelta_seconds (k : EvKind) (x : Rat) : (forDelta k x).seconds = 0 := by
  cases k <;> rfl

lemma playerSeconds_applyShot (cfg : PipelineCfg) (st : SweepSt) (e : RawEvent)
    (team : String) (p : Nat) :
    playerSeconds (applyShot cfg st e).ledger team p = playerSeconds st.ledger team p := by
  unfold applyShot playerSeconds
  split_ifs <;>
    simp [sumSecondsBy_creditPlayers, forDelta_seconds, flipLine]

lemma applyShot_a (cfg : PipelineCfg) (st : SweepSt) (e : RawEvent) :
    (applyShot cfg st e).a = st.a := by
  unfold applyShot
  split_ifs <;> rfl

lemma applyShot_b (cfg : PipelineCfg) (st : SweepSt) (e : RawEvent) :
    (applyShot cfg st e).b = st.b := by
  unfold applyShot
  split_ifs <;> rfl

lemma count_creditedList_one (cfg : PipelineCfg) (ts : TeamSt) (p : Nat) (g : Bool)
    (hS : ts.skaters.Nodup) (hG : ts.goalies.Nodup)
    (hcred : g = false ∨ cfg.includeGoalies = true)
    (hmem : p ∈ roleList ts g) (hother : p ∉ roleList ts (!g)) :
    (creditedList cfg ts).count p = 1 := by
  cases g
  · have hms : p ∈ ts.skaters := by simpa [roleList] using hmem
    have hng : p ∉ ts.goalies := by simpa [roleList] using hother
    have h1 : ts.skaters.count p = 1 := count_one_of_nodup_mem hS hms
    by_cases hfl : cfg.includeGoalies <;>
      simp [creditedList, hfl, List.count_append, h1,
        List.count_eq_zero_of_not_mem hng]
  · have hmg : p ∈ ts.goalies := by simpa [roleList] using hmem
    have hns : p ∉ ts.skaters := by simpa [roleList] using hother
    have hfl : cfg.includeGoalies = true := by
      rcases hcred with h | h
      · exact absurd h (by simp)
      · exact h
    simp [creditedList, hfl, List.count_append,
      count_one_of_nodup_mem hG hmg, List.count_eq_zero_of_not_mem hns]

lemma count_creditedList_zero (cfg : PipelineCfg) (ts : TeamSt) (p : Nat) (g : Bool)
    (hmem : p ∉ roleList ts g) (hother : p ∉ roleList ts (!g)) :
    (creditedList cfg ts).count p = 0 := by
  have hns : p ∉ ts.skaters := by
    cases g
    · simpa [roleList] using hmem
    · simpa [roleList] using hother
  have hng : p ∉ ts.goalies := by
    cases g
    · simpa [roleList] using hother
    · simpa [roleList] using hmem
  by_cases hfl : cfg.includeGoalies <;>
    simp [creditedList, hfl, List.count_append,
      List.count_eq_zero_of_not_mem hns, List.count_eq_zero_of_not_mem hng]

lemma countP_key_eq (p : Nat) (tm team : String) (lab : StrengthLabel)
    (ps : List Nat) :
    ps.countP (fun q => (⟨q, tm, lab⟩ : LKey).player == p
        && (⟨q, tm, lab⟩ : LKey).team == team) =
      if tm = team then ps.count p else 0 := by
  by_cases h : tm = team
  · subst h
    rw [if_pos rfl]
    simp [List.count]
  · rw [if_neg h]
    have hb : (tm == team) = false := by
      simpa using h
    simp [hb]

lemma playerSeconds_closeInterval (cfg : PipelineCfg) (st : SweepSt) (tNew : Nat)
    (team : String) (p : Nat) (hAB : cfg.tA ≠ cfg.tB)
    (hteam : team = cfg.tA ∨ team = cfg.tB) :
    playerSeconds (closeInterval cfg st tNew).ledger team p
      = playerSeconds st.ledger team p
        + (creditedList cfg (sideOf cfg st team)).count p * (tNew - st.t) := by
  unfold closeInterval
  by_cases hd : tNew - st.t = 0
  · rw [if_pos hd, hd]
    simp
  · rw [if_neg hd]
    show playerSeconds
        (creditPlayers cfg.tB _ _ (creditedList cfg st.b)
          (creditPlayers cfg.tA _ _ (creditedList cfg st.a) st.ledger)) team p = _
    unfold playerSeconds
    rw [sumSecondsBy_creditPlayers, sumSecondsBy_creditPlayers]
    rcases hteam with h | h
    · subst h
      rw [countP_key_eq, countP_key_eq, if_pos rfl, if_neg (Ne.symm hAB)]
      simp [sideOf, secondsLine]
    · subst h
      rw [countP_key_eq, countP_key_eq, if_pos rfl, if_neg hAB]
      have hne : ¬ cfg.tB = cfg.tA := Ne.symm hAB
      simp [sideOf, hne, secondsLine]

lemma applyOnTeam_fst_of_mem (q : Nat) (gg : Bool) (tmn : String) (ts : TeamSt)
    (anoms : List ShiftAnomaly) (h : q ∈ roleList ts gg) :
    (applyOnTeam q gg tmn ts anoms).1 = ts := by
  cases gg
  · have h2 : q ∈ ts.skaters := by simpa [roleList] using h
    simp [applyOnTeam, h2]
  · have h2 : q ∈ ts.goalies := by simpa [roleList] using h
    simp [applyOnTeam, h2]

lemma applyOffTeam_fst_of_not_mem (q : Nat) (gg : Bool) (tmn : String) (ts : TeamSt)
    (anoms : List ShiftAnomaly) (h : q ∉ roleList ts gg) :
    (applyOffTeam q gg tmn ts anoms).1 = ts := by
  cases gg
  · have h2 : q ∉ ts.skaters := by simpa [roleList] using h
    simp [applyOffTeam, h2]
  · have h2 : q ∉ ts.goalies := by simpa [roleList] using h
    simp [applyOffTeam, h2]

lemma applyOnTeam_roleList_self (q : Nat) (gg : Bool) (tmn : String) (ts : TeamSt)
    (anoms : List ShiftAnomaly) (h : q ∉ roleList ts gg) :
    roleList (applyOnTeam q gg tmn ts anoms).1 gg = q :: roleList ts gg := by
  cases gg
  · have h2 : q ∉ ts.skaters := by simpa [roleList] using h
    simp [applyOnTeam, roleList, h2]
  · have h2 : q ∉ ts.goalies := by simpa [roleList] using h
    simp [applyOnTeam, roleList, h2]

lemma applyOnTeam_roleList_other (q : Nat) (gg : Bool) (tmn : String) (ts : TeamSt)
    (anoms : List ShiftAnomaly) :
    roleList (applyOnTeam q gg tmn ts anoms).1 (!gg) = roleList ts (!gg) := by
  cases gg <;> simp [applyOnTeam, roleList] <;> split_ifs <;> rfl

lemma applyOffTeam_roleList_self (q : Nat) (gg : Bool) (tmn : String) (ts : TeamSt)
    (anoms : List ShiftAnomaly) (h : q ∈ roleList ts gg) :
    roleList (applyOffTeam q gg tmn ts anoms).1 gg = (roleList ts gg).erase q := by
  cases gg
  · have h2 : q ∈ ts.skaters := by simpa [roleList] using h
    simp [applyOffTeam, roleList, h2]
  · have h2 : q ∈ ts.goalies := by simpa [roleList] using h
    simp [applyOffTeam, roleList, h2]

lemma applyOffTeam_roleList_other (q : Nat) (gg : Bool) (tmn : String) (ts : TeamSt)
    (anoms : List ShiftAnomaly) :
    roleList (applyOffTeam q gg tmn ts anoms).1 (!gg) = roleList ts (!gg) := by
  cases gg <;> simp [applyOffTeam, roleList] <;> split_ifs <;> rfl

lemma applyOnTeam_mem_iff (q : Nat) (gg : Bool) (tmn : String) (ts : TeamSt)
    (anoms : List ShiftAnomaly) (p : Nat) (hpq : p ≠ q) (g2 : Bool) :
    p ∈ roleList (applyOnTeam q gg tmn ts anoms).1 g2 ↔ p ∈ roleList ts g2 := by
  cases gg <;> cases g2 <;>
    simp [applyOnTeam, roleList] <;> split_ifs <;> simp [hpq]

lemma applyOffTeam_mem_iff (q : Nat) (gg : Bool) (tmn : String) (ts : TeamSt)
    (anoms : List ShiftAnomaly) (p : Nat) (hpq : p ≠ q) (g2 : Bool) :
    p ∈ roleList (applyOffTeam q gg tmn ts anoms).1 g2 ↔ p ∈ roleList ts g2 := by
  cases gg <;> cases g2 <;>
    simp [applyOffTeam, roleList] <;> split_ifs <;>
    simp [List.mem_erase_of_ne hpq]

lemma applyOnTeam_nodup (q : Nat) (gg : Bool) (tmn : String) (ts : TeamSt)
    (anoms : List ShiftAnomaly) (hS : ts.skaters.Nodup) (hG : ts.goalies.Nodup) :
    (applyOnTeam q gg tmn ts anoms).1.skaters.Nodup ∧
      (applyOnTeam q gg tmn ts anoms).1.goalies.Nodup := by
  cases gg <;> simp [applyOnTeam] <;> split_ifs with h <;>
    exact ⟨by simp [List.nodup_cons, h, hS], by simp [List.nodup_cons, h, hG]⟩

lemma applyOffTeam_nodup (q : Nat) (gg : Bool) (tmn : String) (ts : TeamSt)
    (anoms : List ShiftAnomaly) (hS : ts.skaters.Nodup) (hG : ts.goalies.Nodup) :
    (applyOffTeam q gg tmn ts anoms).1.skaters.Nodup ∧
      (applyOffTeam q gg tmn ts anoms).1.goalies.Nodup := by
  cases gg <;> simp [applyOffTeam] <;> split_ifs with h <;>
    exact ⟨by simp [hS, List.Nodup.erase], by simp [hG, List.Nodup.erase]⟩

lemma sideOf_eq_a (cfg : PipelineCfg) (st : SweepSt) (team : String)
    (h : team = cfg.tA) : sideOf cfg st team = st.a := by
  simp [sideOf, h]

lemma sideOf_eq_b (cfg : PipelineCfg) (st : SweepSt) (team : String)
    (hAB : cfg.tA ≠ cfg.tB) (h : team = cfg.tB) : sideOf cfg st team = st.b := by
  simp [sideOf, h, Ne.symm hAB]

lemma sideOf_nodup (cfg : PipelineCfg) (st : SweepSt) (team : String)
    (hWF : WFSweep st) :
    (sideOf cfg st team).skaters.Nodup ∧ (sideOf cfg st team).goalies.Nodup := by
  obtain ⟨h1, h2, h3, h4⟩ := hWF
  unfold sideOf
  split_ifs <;> exact ⟨by assumption, by assumption⟩

lemma playerInv_close (cfg : PipelineCfg) (team : String) (g : Bool) (p : Nat)
    (st : SweepSt) (cur : Option Nat) (acc : Nat) (tNew : Nat)
    (hAB : cfg.tA ≠ cfg.tB) (hteam : team = cfg.tA ∨ team = cfg.tB)
    (hcred : g = false ∨ cfg.includeGoalies = true)
    (hte : st.t ≤ tNew)
    (hinv : PlayerInv cfg team g p st cur acc) :
    PlayerInv cfg team g p (closeInterval cfg st tNew) cur acc := by
  obtain ⟨hWF, hmem, hother, hs, hsum⟩ := hinv
  have hA := closeInterval_a cfg st tNew
  have hB := closeInterval_b cfg st tNew
  have hT := closeInterval_t cfg st tNew
  have hside : sideOf cfg (closeInterval cfg st tNew) team = sideOf cfg st team := by
    unfold sideOf
    rw [hA, hB]
  refine ⟨?_, ?_, ?_, ?_, ?_⟩
  · unfold WFSweep at hWF ⊢
    rw [hA, hB]
    exact hWF
  · rw [hside]
    exact hmem
  · rw [hside]
    exact hother
  · intro s hsz
    rw [hT]
    exact le_trans (hs s hsz) hte
  · rw [playerSeconds_closeInterval cfg st tNew team p hAB hteam, hT]
    cases cur with
    | none =>
        have hz : (creditedList cfg (sideOf cfg st team)).count p = 0 := by
          apply count_creditedList_zero
          · exact fun hp => (hmem.mp hp) rfl
          · exact hother
        rw [hz]
        simpa using hsum
    | some s =>
        have hnd := sideOf_nodup cfg st team hWF
        have h1 : (creditedList cfg (sideOf cfg st team)).count p = 1 :=
          count_creditedList_one cfg _ p g hnd.1 hnd.2 hcred
            (hmem.mpr (by simp)) hother
        rw [h1, one_mul]
        have hss := hs s rfl
        simp only at hsum ⊢
        omega

lemma applyShot_t (cfg : PipelineCfg) (st : SweepSt) (e : RawEvent) :
    (applyShot cfg st e).t = st.t := by
  unfold applyShot
  split_ifs <;> rfl

lemma applyEvent_ledger_shift (cfg : PipelineCfg) (st : SweepSt) (e : RawEvent)
    (hk : e.kind = .shiftOn ∨ e.kind = .shiftOff) :
    (applyEvent cfg st e).ledger = st.ledger := by
  obtain ⟨k, t, tm, pl, gg, x⟩ := e
  rcases hk with hk | hk <;> dsimp only at hk <;> subst hk <;>
    dsimp only [applyEvent] <;> split_ifs <;> rfl

lemma WFSweep_applyEvent (cfg : PipelineCfg) (st : SweepSt) (e : RawEvent)
    (h : WFSweep st) : WFSweep (applyEvent cfg st e) := by
  obtain ⟨h1, h2, h3, h4⟩ := h
  obtain ⟨k, t, tm, pl, gg, x⟩ := e
  cases k <;> dsimp only [applyEvent] <;>
    try exact ⟨h1, h2, h3, h4⟩
  case shiftOn =>
    split_ifs <;>
      first
        | exact ⟨(applyOnTeam_nodup _ _ _ _ _ h1 h2).1,
            (applyOnTeam_nodup _ _ _ _ _ h1 h2).2, h3, h4⟩
        | exact ⟨h1, h2, (applyOnTeam_nodup _ _ _ _ _ h3 h4).1,
            (applyOnTeam_nodup _ _ _ _ _ h3 h4).2⟩
        | exact ⟨h1, h2, h3, h4⟩
  case shiftOff =>
    split_ifs <;>
      first
        | exact ⟨(applyOffTeam_nodup _ _ _ _ _ h1 h2).1,
            (applyOffTeam_nodup _ _ _ _ _ h1 h2).2, h3, h4⟩
        | exact ⟨h1, h2, (applyOffTeam_nodup _ _ _ _ _ h3 h4).1,
            (applyOffTeam_nodup _ _ _ _ _ h3 h4).2⟩
        | exact ⟨h1, h2, h3, h4⟩
  all_goals
    exact ⟨by rw [applyShot_a]; exact h1, by rw [applyShot_a]; exact h2,
      by rw [applyShot_b]; exact h3, by rw [applyShot_b]; exact h4⟩

lemma applyEvent_sideOf_on (cfg : PipelineCfg) (st : SweepSt) (e : RawEvent)
    (team : String) (hAB : cfg.tA ≠ cfg.tB) (hteam : team = cfg.tA ∨ team = cfg.tB)
    (hk : e.kind = .shiftOn) :
    sideOf cfg (applyEvent cfg st e) team =
      if e.team = team
      then (applyOnTeam e.player e.isGoalie e.team (sideOf cfg st team) st.anomalies).1
      else sideOf cfg st team := by
  obtain ⟨k, t, tm, pl, gg, x⟩ := e
  dsimp only at hk ⊢
  subst hk
  rcases hteam with h1 | h1 <;> subst h1
  · by_cases ha : tm = cfg.tA
    · simp [applyEvent, sideOf, ha, hAB, Ne.symm hAB]
    · by_cases hb : tm = cfg.tB <;>
        simp [applyEvent, sideOf, ha, hb, hAB, Ne.symm hAB]
  · by_cases ha : tm = cfg.tA
    · have hnb : ¬ tm = cfg.tB := by rw [ha]; exact hAB
      simp [applyEvent, sideOf, ha, hnb, hAB, Ne.symm hAB]
    · by_cases hb : tm = cfg.tB <;>
        simp [applyEvent, sideOf, ha, hb, hAB, Ne.symm hAB]

lemma applyEvent_sideOf_off (cfg : PipelineCfg) (st : SweepSt) (e : RawEvent)
    (team : String) (hAB : cfg.tA ≠ cfg.tB) (hteam : team = cfg.tA ∨ team = cfg.tB)
    (hk : e.kind = .shiftOff) :
    sideOf cfg (applyEvent cfg st e) team =
      if e.team = team
      then (applyOffTeam e.player e.isGoalie e.team (sideOf cfg st team) st.anomalies).1
      else sideOf cfg st team := by
  obtain ⟨k, t, tm, pl, gg, x⟩ := e
  dsimp only at hk ⊢
  subst hk
  rcases hteam with h1 | h1 <;> subst h1
  · by_cases ha : tm = cfg.tA
    · simp [applyEvent, sideOf, ha, hAB, Ne.symm hAB]
    · by_cases hb : tm = cfg.tB <;>
        simp [applyEvent, sideOf, ha, hb, hAB, Ne.symm hAB]
  · by_cases ha : tm = cfg.tA
    · have hnb : ¬ tm = cfg.tB := by rw [ha]; exact hAB
      simp [applyEvent, sideOf, ha, hnb, hAB, Ne.symm hAB]
    · by_cases hb : tm = cfg.tB <;>
        simp [applyEvent, sideOf, ha, hb, hAB, Ne.symm hAB]

lemma spans_single_ns (team : String) (g : Bool) (p : Nat) (e : RawEvent)
    (cur : Option Nat) (acc : Nat)
    (h1 : e.kind ≠ .shiftOn) (h2 : e.kind ≠ .shiftOff) :
    shiftSpansAux team g p [e] cur acc = (cur, acc) := by
  obtain ⟨k, t, tm, pl, gg, x⟩ := e
  dsimp only at h1 h2
  by_cases hm : shiftMatches team g p ⟨k, t, tm, pl, gg, x⟩
  · cases k <;>
      first
        | exact absurd rfl h1
        | exact absurd rfl h2
        | (cases cur <;> simp [shiftSpansAux, hm])
  · cases cur <;> simp [shiftSpansAux, hm]

lemma applyEvent_sideOf_ns (cfg : PipelineCfg) (st : SweepSt) (e : RawEvent)
    (team : String) (h1 : e.kind ≠ .shiftOn) (h2 : e.kind ≠ .shiftOff) :
    sideOf cfg (applyEvent cfg st e) team = sideOf cfg st team := by
  obtain ⟨k, t, tm, pl, gg, x⟩ := e
  dsimp only at h1 h2
  cases k <;>
    first
      | exact absurd rfl h1
      | exact absurd rfl h2
      | rfl
      | (unfold sideOf
         dsimp only [applyEvent]
         rw [applyShot_a, applyShot_b])

lemma playerSeconds_applyEvent_ns (cfg : PipelineCfg) (st : SweepSt) (e : RawEvent)
    (team : String) (p : Nat)
    (h1 : e.kind ≠ .shiftOn) (h2 : e.kind ≠ .shiftOff) :
    playerSeconds (applyEvent cfg st e).ledger team p
      = playerSeconds st.ledger team p := by
  obtain ⟨k, t, tm, pl, gg, x⟩ := e
  dsimp only at h1 h2
  cases k <;>
    first
      | exact absurd rfl h1
      | exact absurd rfl h2
      | rfl
      | (dsimp only [applyEvent]
         exact playerSeconds_applyShot cfg st _ team p)

lemma playerInv_apply_ns (cfg : PipelineCfg) (team : String) (g : Bool) (p : Nat)
    (e : RawEvent) (st : SweepSt) (cur : Option Nat) (acc : Nat)
    (h1 : e.kind ≠ .shiftOn) (h2 : e.kind ≠ .shiftOff)
    (hinv : PlayerInv cfg team g p st cur acc) :
    PlayerInv cfg team g p (applyEvent cfg st e) cur acc := by
  obtain ⟨hWF, hmem, hother, hs, hsum⟩ := hinv
  refine ⟨WFSweep_applyEvent cfg st e hWF, ?_, ?_, ?_, ?_⟩
  · rw [applyEvent_sideOf_ns cfg st e team h1 h2]
    exact hmem
  · rw [applyEvent_sideOf_ns cfg st e team h1 h2]
    exact hother
  · intro s hsz
    rw [applyEvent_t]
    exact hs s hsz
  · rw [playerSeconds_applyEvent_ns cfg st e team p h1 h2, applyEvent_t]
    exact hsum

lemma roleList_nodup (cfg : PipelineCfg) (st : SweepSt) (team : String) (g : Bool)
    (hWF : WFSweep st) : (roleList (sideOf cfg st team) g).Nodup := by
  have hnd := sideOf_nodup cfg st team hWF
  cases g <;> simp [roleList, hnd.1, hnd.2]

lemma playerInv_apply (cfg : PipelineCfg) (team : String) (g : Bool) (p : Nat)
    (hAB : cfg.tA ≠ cfg.tB) (hteam : team = cfg.tA ∨ team = cfg.tB)
    (e : RawEvent) (st : SweepSt) (cur : Option Nat) (acc : Nat)
    (hrole : (e.kind = .shiftOn ∨ e.kind = .shiftOff) → e.team = team →
      e.player = p → e.isGoalie = g)
    (hT : st.t = e.elapsed)
    (hinv : PlayerInv cfg team g p st cur acc) :
    PlayerInv cfg team g p (applyEvent cfg st e)
      (shiftSpansAux team g p [e] cur acc).1
      (shiftSpansAux team g p [e] cur acc).2 := by
  obtain ⟨hWF, hmem, hother, hs, hsum⟩ := hinv
  obtain ⟨k, t, tm, pl, gg, x⟩ := e
  dsimp only at hrole hT
  cases k
  case periodEnd =>
    rw [spans_single_ns team g p _ cur acc (by simp) (by simp)]
    exact playerInv_apply_ns cfg team g p _ st cur acc (by simp) (by simp)
      ⟨hWF, hmem, hother, hs, hsum⟩
  case gameEnd =>
    rw [spans_single_ns team g p _ cur acc (by simp) (by simp)]
    exact playerInv_apply_ns cfg team g p _ st cur acc (by simp) (by simp)
      ⟨hWF, hmem, hother, hs, hsum⟩
  case shot =>
    rw [spans_single_ns team g p _ cur acc (by simp) (by simp)]
    exact playerInv_apply_ns cfg team g p _ st cur acc (by simp) (by simp)
      ⟨hWF, hmem, hother, hs, hsum⟩
  case missedShot =>
    rw [spans_single_ns team g p _ cur acc (by simp) (by simp)]
    exact playerInv_apply_ns cfg team g p _ st cur acc (by simp) (by simp)
      ⟨hWF, hmem, hother, hs, hsum⟩
  case blockedShot =>
    rw [spans_single_ns team g p _ cur acc (by simp) (by simp)]
    exact playerInv_apply_ns cfg team g p _ st cur acc (by simp) (by simp)
      ⟨hWF, hmem, hother, hs, hsum⟩
  case goal =>
    rw [spans_single_ns team g p _ cur acc (by simp) (by simp)]
    exact playerInv_apply_ns cfg team g p _ st cur acc (by simp) (by simp)
      ⟨hWF, hmem, hother, hs, hsum⟩
  case shiftOn =>
    have hled := applyEvent_ledger_shift cfg st ⟨.shiftOn, t, tm, pl, gg, x⟩ (Or.inl rfl)
    have ht2 := applyEvent_t cfg st ⟨.shiftOn, t, tm, pl, gg, x⟩
    have hsideOf := applyEvent_sideOf_on cfg st ⟨.shiftOn, t, tm, pl, gg, x⟩ team hAB hteam rfl
    by_cases htm : tm = team
    · by_cases hpl : pl = p
      · have hgg : gg = g := hrole (Or.inl rfl) htm hpl
        subst gg
        subst pl
        subst tm
        have hm : shiftMatches team g p ⟨.shiftOn, t, team, p, g, x⟩ = true := by
          simp [shiftMatches]
        rw [if_pos rfl] at hsideOf
        cases cur with
        | none =>
            have hpnot : p ∉ roleList (sideOf cfg st team) g := fun hp => (hmem.mp hp) rfl
            have hsp : shiftSpansAux team g p [⟨.shiftOn, t, team, p, g, x⟩] Option.none acc
                = (some t, acc) := by simp [shiftSpansAux, hm]
            rw [hsp]
            refine ⟨WFSweep_applyEvent _ _ _ hWF, ?_, ?_, ?_, ?_⟩
            · rw [hsideOf]
              try dsimp only
              rw [applyOnTeam_roleList_self _ _ _ _ _ hpnot]
              simp
            · rw [hsideOf]
              try dsimp only
              rw [applyOnTeam_roleList_other]
              exact hother
            · intro s hsz
              rw [ht2, hT]
              try dsimp only
              injection hsz with hts
              omega
            · rw [hled, ht2, hsum, hT]
              try dsimp only
              simp
        | some s0 =>
            have hpmem : p ∈ roleList (sideOf cfg st team) g := hmem.mpr (by simp)
            have hsp : shiftSpansAux team g p [⟨.shiftOn, t, team, p, g, x⟩] (some s0) acc
                = (some s0, acc) := by simp [shiftSpansAux, hm]
            rw [hsp]
            refine ⟨WFSweep_applyEvent _ _ _ hWF, ?_, ?_, ?_, ?_⟩
            · rw [hsideOf, applyOnTeam_fst_of_mem _ _ _ _ _ hpmem]
              exact hmem
            · rw [hsideOf, applyOnTeam_fst_of_mem _ _ _ _ _ hpmem]
              exact hother
            · intro s hsz
              rw [ht2]
              exact hs s hsz
            · rw [hled, ht2]
              exact hsum
      · have hm : shiftMatches team g p ⟨.shiftOn, t, tm, pl, gg, x⟩ = false := by
          simp [shiftMatches, hpl]
        have hpq : p ≠ pl := fun he => hpl he.symm
        have hsp : shiftSpansAux team g p [⟨.shiftOn, t, tm, pl, gg, x⟩] cur acc
            = (cur, acc) := by cases cur <;> simp [shiftSpansAux, hm]
        rw [hsp, if_pos htm] at *
        rw [hsp]
        refine ⟨WFSweep_applyEvent _ _ _ hWF, ?_, ?_, ?_, ?_⟩
        · rw [hsideOf, applyOnTeam_mem_iff _ _ _ _ _ _ hpq]
          exact hmem
        · rw [hsideOf, applyOnTeam_mem_iff _ _ _ _ _ _ hpq]
          exact hother
        · intro s hsz
          rw [ht2]
          exact hs s hsz
        · rw [hled, ht2]
          exact hsum
    · have hm : shiftMatches team g p ⟨.shiftOn, t, tm, pl, gg, x⟩ = false := by
        simp [shiftMatches, htm]
      have hsp : shiftSpansAux team g p [⟨.shiftOn, t, tm, pl, gg, x⟩] cur acc
          = (cur, acc) := by cases cur <;> simp [shiftSpansAux, hm]
      rw [if_neg htm] at hsideOf
      rw [hsp]
      refine ⟨WFSweep_applyEvent _ _ _ hWF, ?_, ?_, ?_, ?_⟩
      · rw [hsideOf]
        exact hmem
      · rw [hsideOf]
        exact hother
      · intro s hsz
        rw [ht2]
        exact hs s hsz
      · rw [hled, ht2]
        exact hsum
  case shiftOff =>
    have hled := applyEvent_ledger_shift cfg st ⟨.shiftOff, t, tm, pl, gg, x⟩ (Or.inr rfl)
    have ht2 := applyEvent_t cfg st ⟨.shiftOff, t, tm, pl, gg, x⟩
    have hsideOf := applyEvent_sideOf_off cfg st ⟨.shiftOff, t, tm, pl, gg, x⟩ team hAB hteam rfl
    by_cases htm : tm = team
    · by_cases hpl : pl = p
      · have hgg : gg = g := hrole (Or.inr rfl) htm hpl
        subst gg
        subst pl
        subst tm
        have hm : shiftMatches team g p ⟨.shiftOff, t, team, p, g, x⟩ = true := by
          simp [shiftMatches]
        rw [if_pos rfl] at hsideOf
        cases cur with
        | some s0 =>
            have hpmem : p ∈ roleList (sideOf cfg st team) g := hmem.mpr (by simp)
            have hrnd : (roleList (sideOf cfg st team) g).Nodup :=
              roleList_nodup cfg st team g hWF
            have hsp : shiftSpansAux team g p [⟨.shiftOff, t, team, p, g, x⟩] (some s0) acc
                = (Option.none, acc + (t - s0)) := by simp [shiftSpansAux, hm]
            rw [hsp]
            refine ⟨WFSweep_applyEvent _ _ _ hWF, ?_, ?_, ?_, ?_⟩
            · rw [hsideOf]
              try dsimp only
              rw [applyOffTeam_roleList_self _ _ _ _ _ hpmem]
              simp [List.Nodup.mem_erase_iff hrnd]
            · rw [hsideOf]
              try dsimp only
              rw [applyOffTeam_roleList_other]
              exact hother
            · intro s hsz
              exact Option.noConfusion hsz
            · rw [hled, ht2, hsum, hT]
              try dsimp only
              have := hs s0 rfl
              omega
        | none =>
            have hpnot : p ∉ roleList (sideOf cfg st team) g := fun hp => (hmem.mp hp) rfl
            have hsp : shiftSpansAux team g p [⟨.shiftOff, t, team, p, g, x⟩] Option.none acc
                = (Option.none, acc) := by simp [shiftSpansAux, hm]
            rw [hsp]
            refine ⟨WFSweep_applyEvent _ _ _ hWF, ?_, ?_, ?_, ?_⟩
            · rw [hsideOf, applyOffTeam_fst_of_not_mem _ _ _ _ _ hpnot]
              exact hmem
            · rw [hsideOf, applyOffTeam_fst_of_not_mem _ _ _ _ _ hpnot]
              exact hother
            · intro s hsz
              exact Option.noConfusion hsz
            · rw [hled, ht2]
              exact hsum
      · have hm : shiftMatches team g p ⟨.shiftOff, t, tm, pl, gg, x⟩ = false := by
          simp [shiftMatches, hpl]
        have hpq : p ≠ pl := fun he => hpl he.symm
        have hsp : shiftSpansAux team g p [⟨.shiftOff, t, tm, pl, gg, x⟩] cur acc
            = (cur, acc) := by cases cur <;> simp [shiftSpansAux, hm]
        rw [if_pos htm] at hsideOf
        rw [hsp]
        refine ⟨WFSweep_applyEvent _ _ _ hWF, ?_, ?_, ?_, ?_⟩
        · rw [hsideOf, applyOffTeam_mem_iff _ _ _ _ _ _ hpq]
          exact hmem
        · rw [hsideOf, applyOffTeam_mem_iff _ _ _ _ _ _ hpq]
          exact hother
        · intro s hsz
          rw [ht2]
          exact hs s hsz
        · rw [hled, ht2]
          exact hsum
    · have hm : shiftMatches team g p ⟨.shiftOff, t, tm, pl, gg, x⟩ = false := by
        simp [shiftMatches, htm]
      have hsp : shiftSpansAux team g p [⟨.shiftOff, t, tm, pl, gg, x⟩] cur acc
          = (cur, acc) := by cases cur <;> simp [shiftSpansAux, hm]
      rw [if_neg htm] at hsideOf
      rw [hsp]
      refine ⟨WFSweep_applyEvent _ _ _ hWF, ?_, ?_, ?_, ?_⟩
      · rw [hsideOf]
        exact hmem
      · rw [hsideOf]
        exact hother
      · intro s hsz
        rw [ht2]
        exact hs s hsz
      · rw [hled, ht2]
        exact hsum

lemma spans_cons (team : String) (g : Bool) (p : Nat) (e : RawEvent)
    (rest : List RawEvent) (cur : Option Nat) (acc : Nat) :
    shiftSpansAux team g p (e :: rest) cur acc
      = shiftSpansAux team g p rest (shiftSpansAux team g p [e] cur acc).1
          (shiftSpansAux team g p [e] cur acc).2 := by
  obtain ⟨k, t, tm, pl, gg, x⟩ := e
  by_cases hm : shiftMatches team g p ⟨k, t, tm, pl, gg, x⟩
  · cases k <;> cases cur <;> simp [shiftSpansAux, hm]
  · cases cur <;> simp [shiftSpansAux, hm]

lemma playerInv_step (cfg : PipelineCfg) (team : String) (g : Bool) (p : Nat)
    (hAB : cfg.tA ≠ cfg.tB) (hteam : team = cfg.tA ∨ team = cfg.tB)
    (hcred : g = false ∨ cfg.includeGoalies = true)
    (e : RawEvent) (st : SweepSt) (cur : Option Nat) (acc : Nat)
    (hrole : (e.kind = .shiftOn ∨ e.kind = .shiftOff) → e.team = team →
      e.player = p → e.isGoalie = g)
    (hte : st.t ≤ e.elapsed)
    (hinv : PlayerInv cfg team g p st cur acc) :
    PlayerInv cfg team g p (stepEvent cfg st e)
      (shiftSpansAux team g p [e] cur acc).1
      (shiftSpansAux team g p [e] cur acc).2 := by
  unfold stepEvent
  exact playerInv_apply cfg team g p hAB hteam e _ cur acc hrole
    (closeInterval_t cfg st e.elapsed)
    (playerInv_close cfg team g p st cur acc e.elapsed hAB hteam hcred hte hinv)

lemma playerInv_run (cfg : PipelineCfg) (team : String) (g : Bool) (p : Nat)
    (hAB : cfg.tA ≠ cfg.tB) (hteam : team = cfg.tA ∨ team = cfg.tB)
    (hcred : g = false ∨ cfg.includeGoalies = true) :
    ∀ (evs : List RawEvent) (st : SweepSt) (cur : Option Nat) (acc : Nat),
      List.Sorted keyLE evs →
      (∀ e ∈ evs, st.t ≤ e.elapsed) →
      (∀ e ∈ evs, (e.kind = .shiftOn ∨ e.kind = .shiftOff) → e.team = team →
        e.player = p → e.isGoalie = g) →
      PlayerInv cfg team g p st cur acc →
      PlayerInv cfg team g p (runEvents cfg st evs)
        (shiftSpansAux team g p evs cur acc).1
        (shiftSpansAux team g p evs cur acc).2 := by
  intro evs
  induction evs with
  | nil => intro st cur acc _ _ _ h; exact h
  | cons e rest ih =>
      intro st cur acc hsort hlb hrole hinv
      rw [spans_cons]
      have hstep := playerInv_step cfg team g p hAB hteam hcred e st cur acc
        (hrole e (List.mem_cons_self e rest)) (hlb e (List.mem_cons_self e rest)) hinv
      have hsc := List.sorted_cons.mp hsort
      have hrest_lb : ∀ e2 ∈ rest, (stepEvent cfg st e).t ≤ e2.elapsed := by
        intro e2 he2
        rw [stepEvent_t]
        exact keyLE_elapsed (hsc.1 e2 he2)
      exact ih _ _ _ hsc.2 hrest_lb
        (fun e2 he2 => hrole e2 (List.mem_cons_of_mem _ he2)) hstep

lemma teamSeconds_closeInterval (cfg : PipelineCfg) (st : SweepSt) (tNew : Nat)
    (hAB : cfg.tA ≠ cfg.tB) (hte : st.t ≤ tNew)
    (h1 : teamSecondsTotal st.teamLedger cfg.tA = st.t)
    (h2 : teamSecondsTotal st.teamLedger cfg.tB = st.t) :
    teamSecondsTotal (closeInterval cfg st tNew).teamLedger cfg.tA = tNew ∧
      teamSecondsTotal (closeInterval cfg st tNew).teamLedger cfg.tB = tNew := by
  unfold closeInterval
  by_cases hd : tNew - st.t = 0
  · rw [if_pos hd]
    constructor
    · rw [h1]; omega
    · rw [h2]; omega
  · rw [if_neg hd]
    unfold teamSecondsTotal at h1 h2 ⊢
    constructor
    · rw [sumSecondsBy_bump, sumSecondsBy_bump, h1]
      simp [hAB, Ne.symm hAB, secondsLine]
      omega
    · rw [sumSecondsBy_bump, sumSecondsBy_bump, h2]
      simp [hAB, Ne.symm hAB, secondsLine]
      omega

lemma teamSeconds_applyEvent (cfg : PipelineCfg) (st : SweepSt) (e : RawEvent)
    (T : String) :
    teamSecondsTotal (applyEvent cfg st e).teamLedger T
      = teamSecondsTotal st.teamLedger T := by
  obtain ⟨k, t, tm, pl, gg, x⟩ := e
  cases k <;> dsimp only [applyEvent] <;>
    first
      | rfl
      | (split_ifs <;> rfl)
      | (unfold applyShot teamSecondsTotal
         split_ifs <;> simp [sumSecondsBy_bump, forDelta_seconds, flipLine])

lemma teamSeconds_run (cfg : PipelineCfg) (hAB : cfg.tA ≠ cfg.tB) :
    ∀ (evs : List RawEvent) (st : SweepSt),
      List.Sorted keyLE evs →
      (∀ e ∈ evs, st.t ≤ e.elapsed) →
      teamSecondsTotal st.teamLedger cfg.tA = st.t →
      teamSecondsTotal st.teamLedger cfg.tB = st.t →
      teamSecondsTotal (runEvents cfg st evs).teamLedger cfg.tA
          = (runEvents cfg st evs).t ∧
        teamSecondsTotal (runEvents cfg st evs).teamLedger cfg.tB
          = (runEvents cfg st evs).t := by
  intro evs
  induction evs with
  | nil => intro st _ _ h1 h2; exact ⟨h1, h2⟩
  | cons e rest ih =>
      intro st hsort hlb h1 h2
      have hclose := teamSeconds_closeInterval cfg st e.elapsed hAB
        (hlb e (List.mem_cons_self e rest)) h1 h2
      have hsc := List.sorted_cons.mp hsort
      have hrest_lb : ∀ e2 ∈ rest, (stepEvent cfg st e).t ≤ e2.elapsed := by
        intro e2 he2
        rw [stepEvent_t]
        exact keyLE_elapsed (hsc.1 e2 he2)
      have hA2 : teamSecondsTotal (stepEvent cfg st e).teamLedger cfg.tA
          = (stepEvent cfg st e).t := by
        rw [stepEvent_t]
        unfold stepEvent
        rw [teamSeconds_applyEvent]
        exact hclose.1
      have hB2 : teamSecondsTotal (stepEvent cfg st e).teamLedger cfg.tB
          = (stepEvent cfg st e).t := by
        rw [stepEvent_t]
        unfold stepEvent
        rw [teamSeconds_applyEvent]
        exact hclose.2
      exact ih _ hsc.2 hrest_lb hA2 hB2

lemma playerInv_init (cfg : PipelineCfg) (team : String) (g : Bool) (p : Nat) :
    PlayerInv cfg team g p initSweep Option.none 0 := by
  refine ⟨⟨List.nodup_nil, List.nodup_nil, List.nodup_nil, List.nodup_nil⟩, ?_, ?_, ?_, ?_⟩
  · unfold initSweep sideOf roleList
    split_ifs <;> simp
  · unfold initSweep sideOf roleList
    split_ifs <;> simp
  · intro s hsz
    exact Option.noConfusion hsz
  · rfl

/-- C3: time-on-ice conservation — for every event list, every named team of
the configuration, and every player whose shift records for that team
consistently use one goalie flag, the total `seconds` over all ledger
entries of that player equals the total of his individual shift durations
replayed from the ordered events (an open final shift closing at the last
timestamp); and per team the ledger `seconds` across all strength labels sum
to the total elapsed duration of the game. -/
theorem toi_conservation (cfg : PipelineCfg) (evs : List RawEvent) (team : String)
    (g : Bool) (p : Nat) (hAB : cfg.tA ≠ cfg.tB)
    (hteam : team = cfg.tA ∨ team = cfg.tB)
    (hcred : g = false ∨ cfg.includeGoalies = true)
    (hrole : ∀ e ∈ evs, (e.kind = .shiftOn ∨ e.kind = .shiftOff) → e.team = team →
      e.player = p → e.isGoalie = g) :
    playerSeconds (pipeline cfg evs).ledger team p
        = shiftTotal team g p (sortEvents evs) ∧
    teamSecondsTotal (pipeline cfg evs).teamLedger cfg.tA = finalTime (sortEvents evs) ∧
    teamSecondsTotal (pipeline cfg evs).teamLedger cfg.tB = finalTime (sortEvents evs) := by
  have hsort : List.Sorted keyLE (sortEvents evs) :=
    List.sorted_insertionSort keyLE evs
  have hrole2 : ∀ e ∈ sortEvents evs, (e.kind = .shiftOn ∨ e.kind = .shiftOff) →
      e.team = team → e.player = p → e.isGoalie = g :=
    fun e he => hrole e ((List.perm_insertionSort keyLE evs).mem_iff.mp he)
  have hlb : ∀ e ∈ sortEvents evs, initSweep.t ≤ e.elapsed := fun e _ => Nat.zero_le _
  have hT : (runEvents cfg initSweep (sortEvents evs)).t = finalTime (sortEvents evs) := by
    rw [runEvents_t]
    rfl
  constructor
  · have hfin := playerInv_run cfg team g p hAB hteam hcred (sortEvents evs)
      initSweep Option.none 0 hsort hlb hrole2 (playerInv_init cfg team g p)
    obtain ⟨_, _, _, _, hsum⟩ := hfin
    show playerSeconds (runEvents cfg initSweep (sortEvents evs)).ledger team p = _
    rw [hsum]
    unfold shiftTotal
    rcases hsp : shiftSpansAux team g p (sortEvents evs) Option.none 0 with ⟨cur2, acc2⟩
    cases cur2 <;> simp [hT]
  · have hteamrun := teamSeconds_run cfg hAB (sortEvents evs) initSweep hsort hlb rfl rfl
    exact ⟨hT ▸ hteamrun.1, hT ▸ hteamrun.2⟩

/-- C3 witness: in a concrete two-player game the ledger seconds equal the
replayed shift seconds and the team totals equal the elapsed duration. -/
theorem toi_conservation_witness :
    playerSeconds (pipeline ⟨"OTT", "WPG", false⟩
        [⟨.shiftOn, 0, "OTT", 1, false, 0⟩, ⟨.shiftOn, 0, "WPG", 2, false, 0⟩,
         ⟨.shiftOff, 70, "OTT", 1, false, 0⟩, ⟨.gameEnd, 120, "OTT", 0, false, 0⟩]).ledger
        "OTT" 1
      = shiftTotal "OTT" false 1 (sortEvents
          [⟨.shiftOn, 0, "OTT", 1, false, 0⟩, ⟨.shiftOn, 0, "WPG", 2, false, 0⟩,
           ⟨.shiftOff, 70, "OTT", 1, false, 0⟩, ⟨.gameEnd, 120, "OTT", 0, false, 0⟩]) ∧
    teamSecondsTotal (pipeline ⟨"OTT", "WPG", false⟩
        [⟨.shiftOn, 0, "OTT", 1, false, 0⟩, ⟨.shiftOn, 0, "WPG", 2, false, 0⟩,
         ⟨.shiftOff, 70, "OTT", 1, false, 0⟩, ⟨.gameEnd, 120, "OTT", 0, false, 0⟩]).teamLedger
        "OTT"
      = finalTime (sortEvents
          [⟨.shiftOn, 0, "OTT", 1, false, 0⟩, ⟨.shiftOn, 0, "WPG", 2, false, 0⟩,
           ⟨.shiftOff, 70, "OTT", 1, false, 0⟩, ⟨.gameEnd, 120, "OTT", 0, false, 0⟩]) :=
  ⟨(toi_conservation ⟨"OTT", "WPG", false⟩ _ "OTT" false 1 (by decide) (Or.inl rfl)
      (Or.inl rfl) (by decide)).1,
   (toi_conservation ⟨"OTT", "WPG", false⟩ _ "OTT" false 1 (by decide) (Or.inl rfl)
      (Or.inl rfl) (by decide)).2.1⟩
